import Mathlib

/-
Verification development for the xiaobo-task repository (src/xiaobo_task/manager.py).

The file embeds the task-manager core in Lean:
  * the completion dispatcher task_done_callback shared (up to awaiting) by
    TaskManager and AsyncTaskManager,
  * the constructor validation of _BaseTaskManager,
  * a small-step operational model of AsyncTaskManager: submission, the
    semaphore admission gate, the started flag, the live-task registry,
    the two done callbacks of a task, and the shutdown protocol.
Theorems at the end settle the specification claims against these definitions.
-/

set_option maxHeartbeats 1000000

namespace XiaoboTask

/-- Model of the Python exception taxonomy exactly as the dispatcher
distinguishes it: cancelled is CancelledError / asyncio.CancelledError (caught
by the first except clause; since Python 3.8 it derives from BaseException, not
Exception), exn c is an ordinary Exception (caught by the second clause), and
base c is any other BaseException such as KeyboardInterrupt or SystemExit
(caught by neither clause). The Nat code distinguishes exception values. -/
inductive PyExn : Type where
  | cancelled : PyExn
  | exn : Nat → PyExn
  | base : Nat → PyExn
  deriving DecidableEq

/-- Terminal outcome of a task as observed by the done callback: calling
result() on the finished future either returns the value of work or raises an
exception (CancelledError when the task was cancelled). -/
inductive Outcome (α : Type) : Type where
  | success : α → Outcome α
  | raised : PyExn → Outcome α
  deriving DecidableEq

/-- Record of one callback invocation together with the arguments passed. -/
inductive Call (τ α : Type) : Type where
  | success : τ → α → Call τ α
  | error : τ → PyExn → Call τ α
  | cancel : τ → Call τ α
  deriving DecidableEq

/-- Submission descriptor: the target correlation token plus the three optional
callbacks of submit_task. Each callback is modelled by its observable behavior:
applied to its arguments it either returns normally (none) or itself raises an
exception (some e). The work function itself is not stored here; its outcome is
supplied separately, since the dispatcher only sees the finished future. -/
structure Descriptor (τ α : Type) : Type where
  target : τ
  on_success : Option (τ → α → Option PyExn)
  on_error : Option (τ → PyExn → Option PyExn)
  on_cancel : Option (τ → Option PyExn)

/-- Body of the except CancelledError clause of task_done_callback: invoke
on_cancel when present. An exception raised by on_cancel itself is not caught
by the later except Exception clause (Python does not route exceptions raised
inside an except handler to sibling handlers), so it escapes. Returns the list
of callback invocations performed and the escaping exception, if any. -/
def runCancelBranch {τ α : Type} (d : Descriptor τ α) :
    List (Call τ α) × Option PyExn :=
  match d.on_cancel with
  | none => ([], none)
  | some f => ([Call.cancel d.target], f d.target)

/-- Body of the except Exception clause of task_done_callback: invoke on_error
with the caught exception when present. An exception raised by on_error itself
escapes the dispatcher. -/
def runErrorBranch {τ α : Type} (d : Descriptor τ α) (e : PyExn) :
    List (Call τ α) × Option PyExn :=
  match d.on_error with
  | none => ([], none)
  | some f => ([Call.error d.target e], f d.target e)

/-- Shallow embedding of _task_done_callback of both TaskManager.submit_task
and AsyncTaskManager.submit_task (manager.py lines 83-93 and 153-163):

    try:
        result = future.result()
        if on_success: on_success(target, result)
    except CancelledError:
        if on_cancel: on_cancel(target)
    except Exception as e:
        if on_error: on_error(target, e)

The value is the list of callback invocations performed, in order, paired with
the exception escaping the dispatcher, if any. An exception raised by the
on_success call inside the try block is caught by the matching except clause:
CancelledError reaches the cancel branch, an ordinary Exception reaches the
error branch, and any other BaseException escapes. Exceptions raised by
on_cancel or on_error themselves escape uncaught. -/
def task_done_callback {τ α : Type} (d : Descriptor τ α) :
    Outcome α → List (Call τ α) × Option PyExn
  | Outcome.success r =>
    match d.on_success with
    | none => ([], none)
    | some f =>
      match f d.target r with
      | none => ([Call.success d.target r], none)
      | some PyExn.cancelled =>
        let p := runCancelBranch d
        (Call.success d.target r :: p.1, p.2)
      | some (PyExn.exn c) =>
        let p := runErrorBranch d (PyExn.exn c)
        (Call.success d.target r :: p.1, p.2)
      | some (PyExn.base c) => ([Call.success d.target r], some (PyExn.base c))
  | Outcome.raised PyExn.cancelled => runCancelBranch d
  | Outcome.raised (PyExn.exn c) => runErrorBranch d (PyExn.exn c)
  | Outcome.raised (PyExn.base c) => ([], some (PyExn.base c))

/-- Shallow embedding of the validation in _BaseTaskManager.__init__
(manager.py lines 12-14): raise ValueError when max_workers is provided and
not positive; accept None and every positive value. Both concrete managers
call this via super().__init__(max_workers). -/
def baseTaskManagerInit (max_workers : Option Int) : Except String Unit :=
  match max_workers with
  | some n =>
    if n ≤ 0 then Except.error "max_workers must be a positive integer or None"
    else Except.ok ()
  | none => Except.ok ()

/-- Predicate: every callback present in the descriptor returns normally on all
inputs (no user callback raises). -/
def NoRaise {τ α : Type} (d : Descriptor τ α) : Prop :=
  (∀ f, d.on_success = some f → ∀ t r, f t r = none) ∧
  (∀ g, d.on_error = some g → ∀ t e, g t e = none) ∧
  (∀ k, d.on_cancel = some k → ∀ t, k t = none)

/-- The callback matching a given outcome is present in the descriptor, and the
outcome is one the dispatcher classifies (not a non-Exception BaseException). -/
def matchingPresent {τ α : Type} (d : Descriptor τ α) : Outcome α → Bool
  | Outcome.success _ => d.on_success.isSome
  | Outcome.raised PyExn.cancelled => d.on_cancel.isSome
  | Outcome.raised (PyExn.exn _) => d.on_error.isSome
  | Outcome.raised (PyExn.base _) => false

/-- Phase of the coroutine _run_with_semaphore of one submitted task
(manager.py lines 137-146), refined with the two program points around the
started flag: created (asyncio.create_task done, coroutine not yet first
scheduled), waitingPermit (suspended inside the semaphore acquire),
startedMark (permit held when a gate exists; the setattr of started has run but
task_func has not yet been entered), running (task_func executing), and done
(the task reached a terminal outcome). -/
inductive Phase (α : Type) : Type where
  | created : Phase α
  | waitingPermit : Phase α
  | startedMark : Phase α
  | running : Phase α
  | done : Outcome α → Phase α
  deriving DecidableEq

/-- Truth value of Task.done() for a phase. -/
def Phase.isDone {α : Type} : Phase α → Bool
  | Phase.done _ => true
  | _ => false

/-- State of one submitted task of AsyncTaskManager. The first six fields
mirror the Python object (descriptor, coroutine phase, the dynamic started
attribute, the semaphore permit, and the cancellation request flag); the
remaining fields are bookkeeping for the two done callbacks registered in
submit_task: dispatchPending records that the callback creating the dispatch
task has queued it but its body has not yet run, discardPending records that
the registry discard callback is queued but has not yet run, workStarted and
dispatched are ghost observers recording whether task_func was ever entered
and whether the dispatch body has run. -/
structure TaskUnit (τ α : Type) : Type where
  desc : Descriptor τ α
  phase : Phase α
  started : Bool
  workStarted : Bool
  holdsPermit : Bool
  cancelRequested : Bool
  discardPending : Bool
  dispatchPending : Bool
  dispatched : Bool

/-- Record of one call to AsyncTaskManager.shutdown. snapshot is the content
of the _tasks registry at the moment of the call (tasks = set(self._tasks));
submittedCount is a ghost field recording how many tasks had been submitted
when the call was made; finished records whether the call has returned. -/
structure ShutdownRec : Type where
  wait : Bool
  cancel_tasks : Bool
  snapshot : List Nat
  submittedCount : Nat
  finished : Bool

/-- Global state of one AsyncTaskManager together with its event loop:
capacity is the max_workers argument (none means no semaphore), avail the
number of free semaphore permits, units the submitted tasks indexed by
submission order, registry the _tasks set as a list of indices, calls the
ghost trace of all callback invocations performed so far, and shutdowns the
records of shutdown calls made so far. -/
structure MState (τ α : Type) : Type where
  capacity : Option Nat
  avail : Nat
  units : List (TaskUnit τ α)
  registry : List Nat
  calls : List (Call τ α)
  shutdowns : List ShutdownRec

/-- State of a freshly constructed AsyncTaskManager: the semaphore starts with
capacity permits, the registry is empty, nothing has run. -/
def initState (τ α : Type) (capacity : Option Nat) : MState τ α :=
  { capacity := capacity
    avail := capacity.getD 0
    units := []
    registry := []
    calls := []
    shutdowns := [] }

/-- Replace the unit at index i. -/
def MState.setUnit {τ α : Type} (s : MState τ α) (i : Nat) (u : TaskUnit τ α) :
    MState τ α :=
  { s with units := s.units.set i u }

/-- Effect of the shutdown for-loop body on one unit: task.cancel() is called
on every snapshotted task that is not yet done. Only the cancellation request
flag changes. -/
def cancelIfLive {τ α : Type} (snap : List Nat) (i : Nat) (u : TaskUnit τ α) :
    TaskUnit τ α :=
  if i ∈ snap ∧ u.phase.isDone = false then { u with cancelRequested := true }
  else u

/-- Pointwise application of cancelIfLive to the unit list, tracking indices
from k upward. -/
def requestCancelsAux {τ α : Type} (snap : List Nat) (k : Nat) :
    List (TaskUnit τ α) → List (TaskUnit τ α)
  | [] => []
  | u :: rest => cancelIfLive snap k u :: requestCancelsAux snap (k + 1) rest

/-- Model of the loop in AsyncTaskManager.shutdown (manager.py lines 176-178):
for task in tasks: if not task.done(): task.cancel(). Order of iteration is
irrelevant because only cancelRequested flags change. -/
def requestCancels {τ α : Type} (us : List (TaskUnit τ α)) (snap : List Nat) :
    List (TaskUnit τ α) :=
  requestCancelsAux snap 0 us

/-- Successor state of a shutdown call that runs to completion without
suspending (manager.py lines 172-183): this is the execution of the whole body
when wait is false or the snapshot is empty, in which case the gather is
skipped or empty and the body has no suspension point. The snapshot is taken,
cancellation is requested on live snapshotted tasks when cancel_tasks holds,
and the registry is cleared. No callback is invoked by shutdown itself. -/
def shutdownAtomicState {τ α : Type} (s : MState τ α) (w c : Bool) :
    MState τ α :=
  { s with
    units := if c then requestCancels s.units s.registry else s.units
    registry := []
    shutdowns := s.shutdowns ++ [⟨w, c, s.registry, s.units.length, true⟩] }

/-- Small-step transition relation of an event loop driving one
AsyncTaskManager. Interleaving of units is arbitrary; suspension points are
the semaphore acquire, the body of work, and the gather inside shutdown. -/
inductive Step {τ α : Type} : MState τ α → MState τ α → Prop where
  /-- AsyncTaskManager.submit_task (manager.py lines 165-170): the coroutine
  task is created with started set to False, both done callbacks are
  registered, and the task is added to the _tasks registry. -/
  | submit (s : MState τ α) (d : Descriptor τ α) :
      Step s { s with
        units := s.units ++
          [⟨d, Phase.created, false, false, false, false, false, false, false⟩]
        registry := s.registry ++ [s.units.length] }
  /-- First scheduling of the coroutine when a semaphore exists: it enters
  the acquire of the async with (manager.py line 140). -/
  | enterAcquire (s : MState τ α) (i : Nat) (u : TaskUnit τ α) (N : Nat)
      (hu : s.units[i]? = some u) (hcap : s.capacity = some N)
      (hp : u.phase = Phase.created) (hc : u.cancelRequested = false) :
      Step s (s.setUnit i { u with phase := Phase.waitingPermit })
  /-- The acquire succeeds while a permit is free: the permit is taken, the
  started attribute is set (manager.py lines 141-142). -/
  | acquirePermit (s : MState τ α) (i : Nat) (u : TaskUnit τ α) (N : Nat)
      (hu : s.units[i]? = some u) (hcap : s.capacity = some N)
      (hp : u.phase = Phase.waitingPermit) (hc : u.cancelRequested = false)
      (ha : 0 < s.avail) :
      Step s { s.setUnit i
          { u with phase := Phase.startedMark, started := true,
                   holdsPermit := true } with
        avail := s.avail - 1 }
  /-- First scheduling of the coroutine when no semaphore exists: the started
  attribute is set directly (manager.py lines 144-145). -/
  | startNoGate (s : MState τ α) (i : Nat) (u : TaskUnit τ α)
      (hu : s.units[i]? = some u) (hcap : s.capacity = none)
      (hp : u.phase = Phase.created) (hc : u.cancelRequested = false) :
      Step s (s.setUnit i { u with phase := Phase.startedMark, started := true })
  /-- The coroutine enters await task_func() (manager.py lines 143 and 146);
  there is no suspension point between the setattr and this call. -/
  | invokeWork (s : MState τ α) (i : Nat) (u : TaskUnit τ α)
      (hu : s.units[i]? = some u) (hp : u.phase = Phase.startedMark) :
      Step s (s.setUnit i { u with phase := Phase.running, workStarted := true })
  /-- The body of work runs to a terminal outcome: a return value, an
  ordinary exception, a non-Exception BaseException, or CancelledError (in
  particular when cancellation was requested mid-flight). The async with
  releases the permit on every exit path; the event loop then queues the two
  done callbacks of the task, in registration order. -/
  | finishWork (s : MState τ α) (i : Nat) (u : TaskUnit τ α) (o : Outcome α)
      (hu : s.units[i]? = some u) (hp : u.phase = Phase.running) :
      Step s { s.setUnit i
          { u with phase := Phase.done o, holdsPermit := false,
                   discardPending := true, dispatchPending := true } with
        avail := s.avail + (if u.holdsPermit then 1 else 0) }
  /-- A cancellation request lands on a task that never started work: the
  CancelledError is delivered at task entry or inside the semaphore acquire,
  no permit is held, the task terminates cancelled with started still False,
  and its done callbacks are queued. -/
  | cancelAbort (s : MState τ α) (i : Nat) (u : TaskUnit τ α)
      (hu : s.units[i]? = some u)
      (hp : u.phase = Phase.created ∨ u.phase = Phase.waitingPermit)
      (hc : u.cancelRequested = true) :
      Step s (s.setUnit i
        { u with phase := Phase.done (Outcome.raised PyExn.cancelled),
                 discardPending := true, dispatchPending := true })
  /-- A caller requests cancellation of a not-yet-done task via the handle. -/
  | requestCancel (s : MState τ α) (i : Nat) (u : TaskUnit τ α)
      (hu : s.units[i]? = some u) (hd : u.phase.isDone = false) :
      Step s (s.setUnit i { u with cancelRequested := true })
  /-- The registry discard callback of a finished task runs (manager.py line
  168): the handle leaves _tasks. The dispatch task created by the other done
  callback was appended to the ready queue after this callback, so it cannot
  have run yet. -/
  | runDiscard (s : MState τ α) (i : Nat) (u : TaskUnit τ α)
      (hu : s.units[i]? = some u) (hd : u.discardPending = true) :
      Step s { s.setUnit i { u with discardPending := false } with
        registry := s.registry.erase i }
  /-- The body of the dispatch task created on line 167 runs: it executes
  task_done_callback on the finished task, performing the callback
  invocations. It can only run after the discard callback, which was queued
  before it. -/
  | runDispatch (s : MState τ α) (i : Nat) (u : TaskUnit τ α) (o : Outcome α)
      (hu : s.units[i]? = some u) (hp : u.dispatchPending = true)
      (hd : u.discardPending = false) (ho : u.phase = Phase.done o) :
      Step s { s.setUnit i { u with dispatchPending := false, dispatched := true }
          with calls := s.calls ++ (task_done_callback u.desc o).1 }
  /-- A shutdown call whose body has no suspension point (wait false, or the
  snapshot empty so the gather is skipped): it runs atomically. -/
  | shutdownAtomic (s : MState τ α) (w c : Bool)
      (h : w = false ∨ s.registry = []) :
      Step s (shutdownAtomicState s w c)
  /-- A shutdown call with wait true and a nonempty snapshot: the snapshot is
  taken, cancellation requests are issued when cancel_tasks holds, and the
  caller suspends on the gather. -/
  | shutdownBegin (s : MState τ α) (c : Bool) (h : s.registry ≠ []) :
      Step s { s with
        units := if c then requestCancels s.units s.registry else s.units
        shutdowns := s.shutdowns ++ [⟨true, c, s.registry, s.units.length, false⟩] }
  /-- The gather of a waiting shutdown call resumes: every snapshotted task is
  done (return_exceptions true, so the gather never re-raises). The registry
  is then cleared and the call returns. -/
  | shutdownFinish (s : MState τ α) (k : Nat) (rec : ShutdownRec)
      (hk : s.shutdowns[k]? = some rec) (hw : rec.wait = true)
      (hf : rec.finished = false)
      (hdone : ∀ i u, i ∈ rec.snapshot → s.units[i]? = some u →
        u.phase.isDone = true) :
      Step s { s with
        registry := []
        shutdowns := s.shutdowns.set k { rec with finished := true } }

/-- States reachable by the event loop from a freshly constructed manager. -/
def Reachable {τ α : Type} (capacity : Option Nat) (s : MState τ α) : Prop :=
  Relation.ReflTransGen Step (initState τ α capacity) s

/-- Truth value of: the body of work of this unit is currently executing. -/
def TaskUnit.isRunning {τ α : Type} (u : TaskUnit τ α) : Bool :=
  match u.phase with
  | Phase.running => true
  | _ => false

/-- Number of units whose work body is currently executing. -/
def countRunning {τ α : Type} (us : List (TaskUnit τ α)) : Nat :=
  us.countP (fun u => u.isRunning)

/-- Number of units currently holding a semaphore permit. -/
def countPermits {τ α : Type} (us : List (TaskUnit τ α)) : Nat :=
  us.countP (fun u => u.holdsPermit)

/-- Modelled from the spec: the parallel TaskManager delegates admission to a
ThreadPoolExecutor of max_workers worker threads (manager.py line 63; the pool
itself is outside this repository). A pool state assigns to each worker the
task it is currently running, if any; each worker runs at most one task at a
time, so the number of concurrently running task bodies is the number of busy
workers. -/
def poolBusy (workers : List (Option Nat)) : Nat :=
  (workers.filterMap id).length

/-- Per-unit structural invariant, conditioned on the manager capacity: the
started flag is false until the unit leaves the waiting phases and true from
startedMark on; the work body is entered only from startedMark; a permit is
held exactly while the unit is between the semaphore acquire and the exit of
the async with (and only when a semaphore exists); a terminal unit whose work
body never ran has started still false and was classified cancelled. -/
def UnitOk {τ α : Type} (cap : Option Nat) (u : TaskUnit τ α) : Prop :=
  match u.phase with
  | Phase.created =>
      u.started = false ∧ u.workStarted = false ∧ u.holdsPermit = false
  | Phase.waitingPermit =>
      u.started = false ∧ u.workStarted = false ∧ u.holdsPermit = false
  | Phase.startedMark =>
      u.started = true ∧ u.workStarted = false ∧ u.holdsPermit = cap.isSome
  | Phase.running =>
      u.started = true ∧ u.workStarted = true ∧ u.holdsPermit = cap.isSome
  | Phase.done o =>
      u.holdsPermit = false ∧ (u.workStarted = true → u.started = true) ∧
      (u.workStarted = false →
        u.started = false ∧ o = Outcome.raised PyExn.cancelled)

/-- Global invariant of reachable manager states. -/
structure Inv {τ α : Type} (s : MState τ α) : Prop where
  regMem : ∀ j ∈ s.registry, j < s.units.length
  regNodup : s.registry.Nodup
  inReg : ∀ i ∈ s.registry, ∀ u, s.units[i]? = some u →
    u.phase.isDone = false ∨ u.discardPending = true
  notReg : s.shutdowns = [] → ∀ i u, s.units[i]? = some u →
    (u.phase.isDone = false ∨ u.discardPending = true) → i ∈ s.registry
  pendDone : ∀ u ∈ s.units, u.discardPending = true → u.phase.isDone = true
  unitOk : ∀ u ∈ s.units, UnitOk s.capacity u
  gatedCount : ∀ N, s.capacity = some N → s.avail + countPermits s.units = N
  subCount : ∀ rec, s.shutdowns[0]? = some rec →
    rec.submittedCount ≤ s.units.length
  drainPrep : ∀ rec, s.shutdowns[0]? = some rec →
    ∀ i u, i < rec.submittedCount → s.units[i]? = some u →
      u.phase.isDone = true ∨ i ∈ rec.snapshot
  drainAll : ∀ rec, s.shutdowns[0]? = some rec → rec.wait = true →
    rec.finished = true → ∀ i u, i < rec.submittedCount →
      s.units[i]? = some u → u.phase.isDone = true

/-- Sample descriptor whose callbacks are all present and never raise. -/
def dNoRaise : Descriptor Nat Nat :=
  ⟨7, some (fun _ _ => none), some (fun _ _ => none), some (fun _ => none)⟩

/-- Sample descriptor whose on_success raises an ordinary Exception. -/
def dRaises : Descriptor Nat Nat :=
  ⟨3, some (fun _ _ => some (PyExn.exn 42)), some (fun _ _ => none), none⟩


/-- Modelled from the spec: lifecycle of one work item inside the
ThreadPoolExecutor used by the parallel TaskManager (the executor itself is
outside this repository): an item is queued until a free worker picks it up,
runs on that worker, and is finished once the worker (or the cancelling
shutdown call) has completed it. -/
inductive PoolItemPhase : Type where
  | queued : PoolItemPhase
  | running : PoolItemPhase
  | finished : PoolItemPhase
  deriving DecidableEq

/-- Modelled from the spec: one future of the parallel TaskManager: the
submitted descriptor, the outcome its work will produce, its executor phase,
and whether its done callback (registered by submit_task, manager.py line 97)
has run. In the pool the done callback runs synchronously on the thread that
completes the future, so callback completion coincides with the finished
phase. -/
structure PoolItem (τ α : Type) : Type where
  desc : Descriptor τ α
  outcome : Outcome α
  phase : PoolItemPhase
  callbackDone : Bool

/-- Modelled from the spec: record of one call to TaskManager.shutdown
(manager.py lines 100-102, delegating to executor.shutdown): its arguments,
the ghost count of futures submitted when the call was made, and whether the
call has returned. -/
structure PoolShutdownRec : Type where
  wait : Bool
  cancel_futures : Bool
  submittedCount : Nat
  returned : Bool
  deriving DecidableEq

/-- Modelled from the spec: state of one parallel TaskManager: its futures,
the ghost trace of callback invocations, and the shutdown calls made. -/
structure PoolState (τ α : Type) : Type where
  items : List (PoolItem τ α)
  calls : List (Call τ α)
  shutdowns : List PoolShutdownRec

/-- State of a freshly constructed parallel manager. -/
def initPool (τ α : Type) : PoolState τ α :=
  ⟨[], [], []⟩

/-- Modelled from the spec: effect of executor.shutdown(cancel_futures=True)
on one future: a queued, not-yet-started future is cancelled, and its done
callback then runs on the CancelledError outcome; started work is not
interrupted. -/
def cancelQueuedItem {τ α : Type} (u : PoolItem τ α) : PoolItem τ α :=
  if u.phase = PoolItemPhase.queued then
    { u with phase := PoolItemPhase.finished, callbackDone := true }
  else u

/-- Pointwise cancellation pass of shutdown(cancel_futures=True) over the
futures. -/
def cancelQueuedItems {τ α : Type} : List (PoolItem τ α) → List (PoolItem τ α)
  | [] => []
  | u :: rest => cancelQueuedItem u :: cancelQueuedItems rest

/-- Callback invocations performed by the cancellation pass: every cancelled
queued future runs its done callback on the cancelled outcome. -/
def cancelQueuedCalls {τ α : Type} : List (PoolItem τ α) → List (Call τ α)
  | [] => []
  | u :: rest =>
    (if u.phase = PoolItemPhase.queued then
      (task_done_callback u.desc (Outcome.raised PyExn.cancelled)).1
    else []) ++ cancelQueuedCalls rest

/-- Modelled from the spec: the synchronous part of a TaskManager.shutdown
call: it applies the cancellation pass when cancel_futures holds and records
the call; with wait false the call has returned already, with wait true it
returns only through the later pshutdownReturn step, once the worker threads
have been joined. -/
def poolShutdownState {τ α : Type} (p : PoolState τ α) (w c : Bool) :
    PoolState τ α :=
  { items := if c then cancelQueuedItems p.items else p.items
    calls := p.calls ++ (if c then cancelQueuedCalls p.items else [])
    shutdowns := p.shutdowns ++ [⟨w, c, p.items.length, !w⟩] }

/-- Modelled from the spec: small-step transitions of the parallel
TaskManager and its worker pool. A worker runs one item to completion and
then runs its done callback synchronously before taking new work, so a
shutdown call with wait true, which joins the worker threads, can return only
once every future submitted before the call is finished and its callback has
run. -/
inductive PStep {τ α : Type} : PoolState τ α → PoolState τ α → Prop where
  /-- TaskManager.submit_task (manager.py lines 96-97): the work item is
  enqueued with its done callback registered. -/
  | psubmit (p : PoolState τ α) (d : Descriptor τ α) (o : Outcome α) :
      PStep p { p with
        items := p.items ++ [⟨d, o, PoolItemPhase.queued, false⟩] }
  /-- A free worker picks up a queued item. -/
  | pstartItem (p : PoolState τ α) (i : Nat) (u : PoolItem τ α)
      (hu : p.items[i]? = some u) (hq : u.phase = PoolItemPhase.queued) :
      PStep p { p with
        items := p.items.set i { u with phase := PoolItemPhase.running } }
  /-- The worker completes the item and immediately runs its done callback
  (the dispatcher) on the terminal outcome, still on the worker thread. -/
  | pfinishItem (p : PoolState τ α) (i : Nat) (u : PoolItem τ α)
      (hu : p.items[i]? = some u) (hr : u.phase = PoolItemPhase.running) :
      PStep p { p with
        items := p.items.set i
          { u with phase := PoolItemPhase.finished, callbackDone := true }
        calls := p.calls ++ (task_done_callback u.desc u.outcome).1 }
  /-- A shutdown call is made, cancelling queued futures when cancel_futures
  holds. -/
  | pshutdownCall (p : PoolState τ α) (w c : Bool) :
      PStep p (poolShutdownState p w c)
  /-- A waiting shutdown call returns once the joined workers have finished
  every future submitted before the call, their done callbacks included. -/
  | pshutdownReturn (p : PoolState τ α) (k : Nat) (rec : PoolShutdownRec)
      (hk : p.shutdowns[k]? = some rec) (hw : rec.wait = true)
      (hr : rec.returned = false)
      (hdone : ∀ i u, i < rec.submittedCount → p.items[i]? = some u →
        u.callbackDone = true) :
      PStep p { p with
        shutdowns := p.shutdowns.set k { rec with returned := true } }

/-- Pool states reachable from a freshly constructed parallel manager. -/
def PReachable {τ α : Type} (p : PoolState τ α) : Prop :=
  Relation.ReflTransGen PStep (initPool τ α) p

/-- Global invariant of reachable pool states. -/
structure PInv {τ α : Type} (p : PoolState τ α) : Prop where
  pSubCount : ∀ rec ∈ p.shutdowns, rec.submittedCount ≤ p.items.length
  pDone : ∀ u ∈ p.items,
    u.callbackDone = true ↔ u.phase = PoolItemPhase.finished
  pDrain : ∀ rec ∈ p.shutdowns, rec.wait = true → rec.returned = true →
    ∀ i u, i < rec.submittedCount → p.items[i]? = some u →
      u.callbackDone = true

theorem mem_of_getElem {β : Type} {us : List β} {i : Nat} {u : β}
    (h : us[i]? = some u) : u ∈ us := by
  obtain ⟨hi, rfl⟩ := List.getElem?_eq_some.mp h
  exact List.getElem_mem hi

theorem lt_length_of_getElem {β : Type} {us : List β} {i : Nat} {u : β}
    (h : us[i]? = some u) : i < us.length :=
  (List.getElem?_eq_some.mp h).1

theorem getElem?_set_split {β : Type} {us : List β} {i : Nat} {u : β} (v : β)
    (hu : us[i]? = some u) (j : Nat) :
    (us.set i v)[j]? = if j = i then some v else us[j]? := by
  by_cases h : j = i
  · subst h
    rw [if_pos rfl, List.getElem?_set_self (lt_length_of_getElem hu)]
  · rw [if_neg h, List.getElem?_set_ne (Ne.symm h)]

theorem countP_set_add {β : Type} (p : β → Bool) :
    ∀ (us : List β) (i : Nat) (u v : β), us[i]? = some u →
      (us.set i v).countP p + (if p u then 1 else 0)
        = us.countP p + (if p v then 1 else 0)
  | [], i, u, v, h => by simp at h
  | a :: rest, 0, u, v, h => by
      obtain rfl : a = u := by simpa using h
      simp only [List.set_cons_zero, List.countP_cons]
      omega
  | a :: rest, i+1, u, v, h => by
      have ih := countP_set_add p rest i u v (by simpa using h)
      have hset : (a :: rest).set (i+1) v = a :: rest.set i v := rfl
      rw [hset, List.countP_cons, List.countP_cons]
      omega

theorem requestCancelsAux_length {τ α : Type} (snap : List Nat) :
    ∀ (k : Nat) (us : List (TaskUnit τ α)),
      (requestCancelsAux snap k us).length = us.length
  | _, [] => rfl
  | k, _ :: rest => by
      simp [requestCancelsAux, requestCancelsAux_length snap (k+1) rest]

theorem requestCancels_length {τ α : Type} (us : List (TaskUnit τ α))
    (snap : List Nat) : (requestCancels us snap).length = us.length :=
  requestCancelsAux_length snap 0 us

theorem requestCancelsAux_getElem? {τ α : Type} (snap : List Nat) :
    ∀ (k : Nat) (us : List (TaskUnit τ α)) (i : Nat),
      (requestCancelsAux snap k us)[i]? = (us[i]?).map (cancelIfLive snap (k + i))
  | _, [], i => by simp [requestCancelsAux]
  | k, u :: rest, 0 => by simp [requestCancelsAux]
  | k, u :: rest, i+1 => by
      have ih := requestCancelsAux_getElem? snap (k+1) rest i
      have harith : k + 1 + i = k + (i + 1) := by omega
      simp only [requestCancelsAux, List.getElem?_cons_succ, ih, harith]

theorem requestCancels_getElem? {τ α : Type} (us : List (TaskUnit τ α))
    (snap : List Nat) (i : Nat) :
    (requestCancels us snap)[i]? = (us[i]?).map (cancelIfLive snap i) := by
  have h := requestCancelsAux_getElem? snap 0 us i
  simpa [requestCancels] using h

theorem cancelIfLive_phase {τ α : Type} (snap : List Nat) (i : Nat)
    (u : TaskUnit τ α) : (cancelIfLive snap i u).phase = u.phase := by
  unfold cancelIfLive
  split <;> rfl

theorem cancelIfLive_started {τ α : Type} (snap : List Nat) (i : Nat)
    (u : TaskUnit τ α) : (cancelIfLive snap i u).started = u.started := by
  unfold cancelIfLive
  split <;> rfl

theorem cancelIfLive_workStarted {τ α : Type} (snap : List Nat) (i : Nat)
    (u : TaskUnit τ α) : (cancelIfLive snap i u).workStarted = u.workStarted := by
  unfold cancelIfLive
  split <;> rfl

theorem cancelIfLive_holdsPermit {τ α : Type} (snap : List Nat) (i : Nat)
    (u : TaskUnit τ α) : (cancelIfLive snap i u).holdsPermit = u.holdsPermit := by
  unfold cancelIfLive
  split <;> rfl

theorem cancelIfLive_discardPending {τ α : Type} (snap : List Nat) (i : Nat)
    (u : TaskUnit τ α) :
    (cancelIfLive snap i u).discardPending = u.discardPending := by
  unfold cancelIfLive
  split <;> rfl

theorem cancelIfLive_dispatchPending {τ α : Type} (snap : List Nat) (i : Nat)
    (u : TaskUnit τ α) :
    (cancelIfLive snap i u).dispatchPending = u.dispatchPending := by
  unfold cancelIfLive
  split <;> rfl

theorem cancelIfLive_dispatched {τ α : Type} (snap : List Nat) (i : Nat)
    (u : TaskUnit τ α) : (cancelIfLive snap i u).dispatched = u.dispatched := by
  unfold cancelIfLive
  split <;> rfl

theorem countPermits_requestCancelsAux {τ α : Type} (snap : List Nat) :
    ∀ (k : Nat) (us : List (TaskUnit τ α)),
      (requestCancelsAux snap k us).countP (fun u => u.holdsPermit)
        = us.countP (fun u => u.holdsPermit)
  | _, [] => rfl
  | k, u :: rest => by
      simp [requestCancelsAux, List.countP_cons,
        countPermits_requestCancelsAux snap (k+1) rest, cancelIfLive_holdsPermit]

theorem countPermits_requestCancels {τ α : Type} (us : List (TaskUnit τ α))
    (snap : List Nat) : countPermits (requestCancels us snap) = countPermits us :=
  countPermits_requestCancelsAux snap 0 us

theorem countP_set_eq {β : Type} (p : β → Bool) {us : List β} {i : Nat} {u : β}
    (v : β) (hu : us[i]? = some u) (hpv : p v = p u) :
    (us.set i v).countP p = us.countP p := by
  have h := countP_set_add p us i u v hu
  rw [hpv] at h
  omega

theorem requestCancels_pointwise {τ α : Type} {us : List (TaskUnit τ α)}
    {snap : List Nat} {i : Nat} {u' : TaskUnit τ α}
    (h : (requestCancels us snap)[i]? = some u') :
    ∃ u, us[i]? = some u ∧ u' = cancelIfLive snap i u := by
  rw [requestCancels_getElem?] at h
  rcases Option.map_eq_some'.mp h with ⟨u, hu, he⟩
  exact ⟨u, hu, he.symm⟩

theorem inv_init {τ α : Type} (capacity : Option Nat) :
    Inv (initState τ α capacity) := by
  constructor <;> simp [initState, countPermits, Option.getD]
  intro N h
  simp [h]

end XiaoboTask

namespace XiaoboTask

theorem unitOk_cancelIfLive {τ α : Type} (cap : Option Nat) (snap : List Nat)
    (i : Nat) (u : TaskUnit τ α) :
    UnitOk cap (cancelIfLive snap i u) ↔ UnitOk cap u := by
  unfold cancelIfLive
  split <;> exact Iff.rfl

theorem mem_requestCancelsAux {τ α : Type} (snap : List Nat) :
    ∀ (k : Nat) (us : List (TaskUnit τ α)) (u' : TaskUnit τ α),
      u' ∈ requestCancelsAux snap k us → ∃ u ∈ us, ∃ j, u' = cancelIfLive snap j u
  | k, [], u', h => by simp [requestCancelsAux] at h
  | k, u :: rest, u', h => by
      rw [requestCancelsAux] at h
      rcases List.mem_cons.mp h with rfl | h
      · exact ⟨u, List.mem_cons_self u rest, k, rfl⟩
      · obtain ⟨w, hw, j, he⟩ := mem_requestCancelsAux snap (k+1) rest u' h
        exact ⟨w, List.mem_cons_of_mem u hw, j, he⟩

theorem mem_requestCancels {τ α : Type} {us : List (TaskUnit τ α)}
    {snap : List Nat} {u' : TaskUnit τ α} (h : u' ∈ requestCancels us snap) :
    ∃ u ∈ us, ∃ j, u' = cancelIfLive snap j u :=
  mem_requestCancelsAux snap 0 us u' h

theorem inv_local {τ α : Type} {s : MState τ α} (h : Inv s) {i : Nat}
    {u : TaskUnit τ α} (hu : s.units[i]? = some u) (v : TaskUnit τ α)
    (av : Nat) (cs : List (Call τ α))
    (hOk : UnitOk s.capacity v)
    (hPend : v.discardPending = true → v.phase.isDone = true)
    (hKeep : (u.phase.isDone = false ∨ u.discardPending = true) →
      (v.phase.isDone = false ∨ v.discardPending = true))
    (hBack : (v.phase.isDone = false ∨ v.discardPending = true) →
      (u.phase.isDone = false ∨ u.discardPending = true))
    (hDone : u.phase.isDone = true → v.phase.isDone = true)
    (hAvail : ∀ N, s.capacity = some N → s.avail + countPermits s.units = N →
      av + countPermits (s.units.set i v) = N) :
    Inv { s with units := s.units.set i v, avail := av, calls := cs } := by
  refine ⟨?_, ?_, ?_, ?_, ?_, ?_, ?_, ?_, ?_, ?_⟩
  · intro j hj
    simp only [List.length_set]
    exact h.regMem j hj
  · exact h.regNodup
  · intro j hj u' hu'
    rw [getElem?_set_split v hu] at hu'
    by_cases hji : j = i
    · rw [if_pos hji] at hu'
      obtain rfl := Option.some.inj hu'
      subst hji
      exact hKeep (h.inReg j hj u hu)
    · rw [if_neg hji] at hu'
      exact h.inReg j hj u' hu'
  · intro hsh j u' hu' hpr
    rw [getElem?_set_split v hu] at hu'
    by_cases hji : j = i
    · rw [if_pos hji] at hu'
      obtain rfl := Option.some.inj hu'
      subst hji
      exact h.notReg hsh j u hu (hBack hpr)
    · rw [if_neg hji] at hu'
      exact h.notReg hsh j u' hu' hpr
  · intro u' hm hdp
    rcases List.mem_or_eq_of_mem_set hm with hm | rfl
    · exact h.pendDone u' hm hdp
    · exact hPend hdp
  · intro u' hm
    rcases List.mem_or_eq_of_mem_set hm with hm | rfl
    · exact h.unitOk u' hm
    · exact hOk
  · intro N hN
    exact hAvail N hN (h.gatedCount N hN)
  · intro rec hrec
    simp only [List.length_set]
    exact h.subCount rec hrec
  · intro rec hrec j u' hj hu'
    rw [getElem?_set_split v hu] at hu'
    by_cases hji : j = i
    · rw [if_pos hji] at hu'
      obtain rfl := Option.some.inj hu'
      subst hji
      rcases h.drainPrep rec hrec j u hj hu with hd | hs
      · exact Or.inl (hDone hd)
      · exact Or.inr hs
    · rw [if_neg hji] at hu'
      exact h.drainPrep rec hrec j u' hj hu'
  · intro rec hrec hw hf j u' hj hu'
    rw [getElem?_set_split v hu] at hu'
    by_cases hji : j = i
    · rw [if_pos hji] at hu'
      obtain rfl := Option.some.inj hu'
      subst hji
      exact hDone (h.drainAll rec hrec hw hf j u hj hu)
    · rw [if_neg hji] at hu'
      exact h.drainAll rec hrec hw hf j u' hj hu'

end XiaoboTask

namespace XiaoboTask

theorem inv_submit {τ α : Type} {s : MState τ α} (h : Inv s)
    (d : Descriptor τ α) :
    Inv { s with
      units := s.units ++
        [⟨d, Phase.created, false, false, false, false, false, false, false⟩]
      registry := s.registry ++ [s.units.length] } := by
  refine ⟨?_, ?_, ?_, ?_, ?_, ?_, ?_, ?_, ?_, ?_⟩
  · intro j hj
    simp only [List.length_append, List.length_cons, List.length_nil]
    rcases List.mem_append.mp hj with hj | hj
    · have := h.regMem j hj
      omega
    · simp at hj
      omega
  · rw [List.nodup_append]
    refine ⟨h.regNodup, by simp, ?_⟩
    intro j hj hj'
    simp at hj'
    subst hj'
    exact absurd (h.regMem _ hj) (lt_irrefl _)
  · intro j hj u' hu'
    rcases List.mem_append.mp hj with hj | hj
    · rw [List.getElem?_append_left (h.regMem j hj)] at hu'
      exact h.inReg j hj u' hu'
    · simp at hj
      subst hj
      have he : (s.units ++
          [(⟨d, Phase.created, false, false, false, false, false, false,
            false⟩ : TaskUnit τ α)])[s.units.length]? = some
          ⟨d, Phase.created, false, false, false, false, false, false, false⟩ := by
        simp
      rw [he] at hu'
      obtain rfl := Option.some.inj hu'
      exact Or.inl rfl
  · intro hsh j u' hu' hpr
    by_cases hlt : j < s.units.length
    · rw [List.getElem?_append_left hlt] at hu'
      exact List.mem_append.mpr (Or.inl (h.notReg hsh j u' hu' hpr))
    · by_cases hj : j = s.units.length
      · subst hj
        exact List.mem_append.mpr (Or.inr (by simp))
      · have hge : (s.units ++
            [(⟨d, Phase.created, false, false, false, false, false, false,
              false⟩ : TaskUnit τ α)]).length ≤ j := by
          simp only [List.length_append, List.length_cons, List.length_nil]
          omega
        rw [List.getElem?_eq_none hge] at hu'
        exact Option.noConfusion hu'
  · intro u' hm hdp
    rcases List.mem_append.mp hm with hm | hm
    · exact h.pendDone u' hm hdp
    · simp at hm
      subst hm
      exact Bool.noConfusion hdp
  · intro u' hm
    rcases List.mem_append.mp hm with hm | hm
    · exact h.unitOk u' hm
    · simp at hm
      subst hm
      exact ⟨rfl, rfl, rfl⟩
  · intro N hN
    have hc := h.gatedCount N hN
    unfold countPermits at hc ⊢
    rw [List.countP_append]
    simp only [List.countP_cons, List.countP_nil]
    norm_num
    exact hc
  · intro rec hrec
    have := h.subCount rec hrec
    simp only [List.length_append, List.length_cons, List.length_nil]
    omega
  · intro rec hrec j u' hj hu'
    have hlt : j < s.units.length := lt_of_lt_of_le hj (h.subCount rec hrec)
    rw [List.getElem?_append_left hlt] at hu'
    exact h.drainPrep rec hrec j u' hj hu'
  · intro rec hrec hw hf j u' hj hu'
    have hlt : j < s.units.length := lt_of_lt_of_le hj (h.subCount rec hrec)
    rw [List.getElem?_append_left hlt] at hu'
    exact h.drainAll rec hrec hw hf j u' hj hu'

theorem inv_runDiscard {τ α : Type} {s : MState τ α} (h : Inv s) {i : Nat}
    {u : TaskUnit τ α} (hu : s.units[i]? = some u)
    (hd : u.discardPending = true) :
    Inv { s.setUnit i { u with discardPending := false } with
      registry := s.registry.erase i } := by
  have hdone : u.phase.isDone = true := h.pendDone u (mem_of_getElem hu) hd
  refine ⟨?_, ?_, ?_, ?_, ?_, ?_, ?_, ?_, ?_, ?_⟩
  · intro j hj
    simp only [MState.setUnit, List.length_set]
    exact h.regMem j (List.mem_of_mem_erase hj)
  · exact h.regNodup.erase i
  · intro j hj u' hu'
    have hji : j ≠ i := by
      intro e
      subst e
      exact h.regNodup.not_mem_erase hj
    simp only [MState.setUnit] at hu'
    rw [getElem?_set_split _ hu, if_neg hji] at hu'
    exact h.inReg j (List.mem_of_mem_erase hj) u' hu'
  · intro hsh j u' hu' hpr
    simp only [MState.setUnit] at hu'
    rw [getElem?_set_split _ hu] at hu'
    by_cases hji : j = i
    · rw [if_pos hji] at hu'
      obtain rfl := Option.some.inj hu'
      rcases hpr with hpr | hpr
      · have hf : u.phase.isDone = false := hpr
        rw [hdone] at hf
        exact Bool.noConfusion hf
      · have hf : (false : Bool) = true := hpr
        exact Bool.noConfusion hf
    · rw [if_neg hji] at hu'
      exact (List.mem_erase_of_ne hji).mpr (h.notReg hsh j u' hu' hpr)
  · intro u' hm hdp
    simp only [MState.setUnit] at hm
    rcases List.mem_or_eq_of_mem_set hm with hm | rfl
    · exact h.pendDone u' hm hdp
    · exact Bool.noConfusion hdp
  · intro u' hm
    simp only [MState.setUnit] at hm
    rcases List.mem_or_eq_of_mem_set hm with hm | rfl
    · exact h.unitOk u' hm
    · exact h.unitOk u (mem_of_getElem hu)
  · intro N hN
    have hc := h.gatedCount N hN
    unfold countPermits at hc ⊢
    simp only [MState.setUnit]
    rw [countP_set_eq (fun u => u.holdsPermit)
      { u with discardPending := false } hu rfl]
    exact hc
  · intro rec hrec
    simp only [MState.setUnit, List.length_set]
    exact h.subCount rec hrec
  · intro rec hrec j u' hj hu'
    simp only [MState.setUnit] at hu'
    rw [getElem?_set_split _ hu] at hu'
    by_cases hji : j = i
    · rw [if_pos hji] at hu'
      obtain rfl := Option.some.inj hu'
      subst hji
      exact h.drainPrep rec hrec j u hj hu
    · rw [if_neg hji] at hu'
      exact h.drainPrep rec hrec j u' hj hu'
  · intro rec hrec hw hf j u' hj hu'
    simp only [MState.setUnit] at hu'
    rw [getElem?_set_split _ hu] at hu'
    by_cases hji : j = i
    · rw [if_pos hji] at hu'
      obtain rfl := Option.some.inj hu'
      subst hji
      exact h.drainAll rec hrec hw hf j u hj hu
    · rw [if_neg hji] at hu'
      exact h.drainAll rec hrec hw hf j u' hj hu'

end XiaoboTask

namespace XiaoboTask

theorem branch_getElem {τ α : Type} (c : Bool) (us : List (TaskUnit τ α))
    (snap : List Nat) {j : Nat} {u' : TaskUnit τ α}
    (h : (if c then requestCancels us snap else us)[j]? = some u') :
    ∃ u0, us[j]? = some u0 ∧ u'.phase = u0.phase ∧ u'.started = u0.started ∧
      u'.workStarted = u0.workStarted ∧ u'.holdsPermit = u0.holdsPermit ∧
      u'.discardPending = u0.discardPending := by
  cases c
  · rw [if_neg (by decide)] at h
    exact ⟨u', h, rfl, rfl, rfl, rfl, rfl⟩
  · rw [if_pos (by decide)] at h
    obtain ⟨u0, hu0, rfl⟩ := requestCancels_pointwise h
    exact ⟨u0, hu0, cancelIfLive_phase _ _ _, cancelIfLive_started _ _ _,
      cancelIfLive_workStarted _ _ _, cancelIfLive_holdsPermit _ _ _,
      cancelIfLive_discardPending _ _ _⟩

theorem branch_mem {τ α : Type} (c : Bool) {us : List (TaskUnit τ α)}
    {snap : List Nat} {u' : TaskUnit τ α}
    (h : u' ∈ (if c then requestCancels us snap else us)) :
    ∃ u0 ∈ us, u'.phase = u0.phase ∧ u'.discardPending = u0.discardPending := by
  cases c
  · rw [if_neg (by decide)] at h
    exact ⟨u', h, rfl, rfl⟩
  · rw [if_pos (by decide)] at h
    obtain ⟨u0, hu0, j, rfl⟩ := mem_requestCancels h
    exact ⟨u0, hu0, cancelIfLive_phase _ _ _, cancelIfLive_discardPending _ _ _⟩

theorem branch_unitOk {τ α : Type} {cap : Option Nat} (c : Bool)
    {us : List (TaskUnit τ α)} (snap : List Nat)
    (h : ∀ u ∈ us, UnitOk cap u) :
    ∀ u' ∈ (if c then requestCancels us snap else us), UnitOk cap u' := by
  cases c
  · rw [if_neg (by decide)]
    exact h
  · rw [if_pos (by decide)]
    intro u' hm
    obtain ⟨u0, hu0, j, rfl⟩ := mem_requestCancels hm
    exact (unitOk_cancelIfLive cap snap j u0).mpr (h u0 hu0)

theorem branch_length {τ α : Type} (c : Bool) (us : List (TaskUnit τ α))
    (snap : List Nat) :
    (if c then requestCancels us snap else us).length = us.length := by
  cases c
  · rw [if_neg (by decide)]
  · rw [if_pos (by decide)]
    exact requestCancels_length us snap

theorem branch_countPermits {τ α : Type} (c : Bool) (us : List (TaskUnit τ α))
    (snap : List Nat) :
    countPermits (if c then requestCancels us snap else us) = countPermits us := by
  cases c
  · rw [if_neg (by decide)]
  · rw [if_pos (by decide)]
    exact countPermits_requestCancels us snap

theorem inv_shutdownBegin {τ α : Type} {s : MState τ α} (h : Inv s) (c : Bool) :
    Inv { s with
      units := if c then requestCancels s.units s.registry else s.units
      shutdowns := s.shutdowns ++ [⟨true, c, s.registry, s.units.length, false⟩] } := by
  refine ⟨?_, ?_, ?_, ?_, ?_, ?_, ?_, ?_, ?_, ?_⟩
  · intro j hj
    rw [branch_length]
    exact h.regMem j hj
  · exact h.regNodup
  · intro j hj u' hu'
    obtain ⟨u0, hu0, hph, _, _, _, hdp⟩ := branch_getElem c _ _ hu'
    rw [hph, hdp]
    exact h.inReg j hj u0 hu0
  · intro hsh
    exact absurd hsh (by simp)
  · intro u' hm hdp
    obtain ⟨u0, hm0, hph, hdp0⟩ := branch_mem c hm
    rw [hdp0] at hdp
    rw [hph]
    exact h.pendDone u0 hm0 hdp
  · exact branch_unitOk c _ h.unitOk
  · intro N hN
    rw [branch_countPermits]
    exact h.gatedCount N hN
  · intro rec hrec
    rw [branch_length]
    by_cases hnil : s.shutdowns = []
    · have he : rec = ⟨true, c, s.registry, s.units.length, false⟩ := by
        rw [hnil] at hrec
        simpa using hrec.symm
      rw [he]
    · rw [List.getElem?_append_left (List.length_pos.mpr hnil)] at hrec
      exact h.subCount rec hrec
  · intro rec hrec j u' hj hu'
    obtain ⟨u0, hu0, hph, _, _, _, _⟩ := branch_getElem c _ _ hu'
    rw [hph]
    by_cases hnil : s.shutdowns = []
    · have he : rec = ⟨true, c, s.registry, s.units.length, false⟩ := by
        rw [hnil] at hrec
        simpa using hrec.symm
      rw [he]
      cases hdu : u0.phase.isDone
      · exact Or.inr (h.notReg hnil j u0 hu0 (Or.inl hdu))
      · exact Or.inl rfl
    · rw [List.getElem?_append_left (List.length_pos.mpr hnil)] at hrec
      exact h.drainPrep rec hrec j u0 hj hu0
  · intro rec hrec hw hf j u' hj hu'
    by_cases hnil : s.shutdowns = []
    · have he : rec = ⟨true, c, s.registry, s.units.length, false⟩ := by
        rw [hnil] at hrec
        simpa using hrec.symm
      rw [he] at hf
      exact Bool.noConfusion hf
    · rw [List.getElem?_append_left (List.length_pos.mpr hnil)] at hrec
      obtain ⟨u0, hu0, hph, _, _, _, _⟩ := branch_getElem c _ _ hu'
      rw [hph]
      exact h.drainAll rec hrec hw hf j u0 hj hu0

theorem inv_shutdownAtomic {τ α : Type} {s : MState τ α} (h : Inv s)
    (w c : Bool) (hwc : w = false ∨ s.registry = []) :
    Inv (shutdownAtomicState s w c) := by
  unfold shutdownAtomicState
  refine ⟨?_, ?_, ?_, ?_, ?_, ?_, ?_, ?_, ?_, ?_⟩
  · intro j hj
    exact absurd hj (by simp)
  · exact List.nodup_nil
  · intro j hj u' hu'
    exact absurd hj (by simp)
  · intro hsh
    exact absurd hsh (by simp)
  · intro u' hm hdp
    obtain ⟨u0, hm0, hph, hdp0⟩ := branch_mem c hm
    rw [hdp0] at hdp
    rw [hph]
    exact h.pendDone u0 hm0 hdp
  · exact branch_unitOk c _ h.unitOk
  · intro N hN
    rw [branch_countPermits]
    exact h.gatedCount N hN
  · intro rec hrec
    rw [branch_length]
    by_cases hnil : s.shutdowns = []
    · have he : rec = ⟨w, c, s.registry, s.units.length, true⟩ := by
        rw [hnil] at hrec
        simpa using hrec.symm
      rw [he]
    · rw [List.getElem?_append_left (List.length_pos.mpr hnil)] at hrec
      exact h.subCount rec hrec
  · intro rec hrec j u' hj hu'
    obtain ⟨u0, hu0, hph, _, _, _, _⟩ := branch_getElem c _ _ hu'
    rw [hph]
    by_cases hnil : s.shutdowns = []
    · have he : rec = ⟨w, c, s.registry, s.units.length, true⟩ := by
        rw [hnil] at hrec
        simpa using hrec.symm
      rw [he]
      cases hdu : u0.phase.isDone
      · exact Or.inr (h.notReg hnil j u0 hu0 (Or.inl hdu))
      · exact Or.inl rfl
    · rw [List.getElem?_append_left (List.length_pos.mpr hnil)] at hrec
      exact h.drainPrep rec hrec j u0 hj hu0
  · intro rec hrec hw hf j u' hj hu'
    obtain ⟨u0, hu0, hph, _, _, _, _⟩ := branch_getElem c _ _ hu'
    rw [hph]
    by_cases hnil : s.shutdowns = []
    · have he : rec = ⟨w, c, s.registry, s.units.length, true⟩ := by
        rw [hnil] at hrec
        simpa using hrec.symm
      have hwt : w = true := by
        rw [he] at hw
        exact hw
      have hreg : s.registry = [] := by
        rcases hwc with hwf | hreg
        · rw [hwt] at hwf
          exact Bool.noConfusion hwf
        · exact hreg
      cases hdu : u0.phase.isDone
      · have hmem := h.notReg hnil j u0 hu0 (Or.inl hdu)
        rw [hreg] at hmem
        exact absurd hmem (by simp)
      · rfl
    · rw [List.getElem?_append_left (List.length_pos.mpr hnil)] at hrec
      exact h.drainAll rec hrec hw hf j u0 hj hu0

theorem inv_shutdownFinish {τ α : Type} {s : MState τ α} (h : Inv s) {k : Nat}
    {rec : ShutdownRec} (hk : s.shutdowns[k]? = some rec)
    (hdone : ∀ i u, i ∈ rec.snapshot → s.units[i]? = some u →
      u.phase.isDone = true) :
    Inv { s with
      registry := []
      shutdowns := s.shutdowns.set k { rec with finished := true } } := by
  refine ⟨?_, ?_, ?_, ?_, ?_, ?_, ?_, ?_, ?_, ?_⟩
  · intro j hj
    exact absurd hj (by simp)
  · exact List.nodup_nil
  · intro j hj u' hu'
    exact absurd hj (by simp)
  · intro hsh j u' hu' hpr
    exfalso
    have h1 := congrArg List.length hsh
    simp only [List.length_set, List.length_nil] at h1
    have h2 := lt_length_of_getElem hk
    omega
  · exact h.pendDone
  · exact h.unitOk
  · exact h.gatedCount
  · intro rec' hrec'
    rw [getElem?_set_split { rec with finished := true } hk 0] at hrec'
    by_cases h0 : (0 : Nat) = k
    · subst h0
      rw [if_pos rfl] at hrec'
      obtain rfl := Option.some.inj hrec'
      exact h.subCount rec hk
    · rw [if_neg h0] at hrec'
      exact h.subCount rec' hrec'
  · intro rec' hrec' j u' hj hu'
    rw [getElem?_set_split { rec with finished := true } hk 0] at hrec'
    by_cases h0 : (0 : Nat) = k
    · subst h0
      rw [if_pos rfl] at hrec'
      obtain rfl := Option.some.inj hrec'
      exact h.drainPrep rec hk j u' hj hu'
    · rw [if_neg h0] at hrec'
      exact h.drainPrep rec' hrec' j u' hj hu'
  · intro rec' hrec' hw' hf' j u' hj hu'
    rw [getElem?_set_split { rec with finished := true } hk 0] at hrec'
    by_cases h0 : (0 : Nat) = k
    · subst h0
      rw [if_pos rfl] at hrec'
      obtain rfl := Option.some.inj hrec'
      rcases h.drainPrep rec hk j u' hj hu' with hd | hs
      · exact hd
      · exact hdone j u' hs hu'
    · rw [if_neg h0] at hrec'
      exact h.drainAll rec' hrec' hw' hf' j u' hj hu'

end XiaoboTask

namespace XiaoboTask

theorem inv_step {τ α : Type} {s s' : MState τ α} (h : Inv s) (st : Step s s') :
    Inv s' := by
  cases st with
  | submit d => exact inv_submit h d
  | enterAcquire i u N hu hcap hp hc =>
      have hOkU := h.unitOk u (mem_of_getElem hu)
      simp only [UnitOk, hp] at hOkU
      simp only [MState.setUnit]
      refine inv_local h hu _ _ _ ?_ ?_ ?_ ?_ ?_ ?_
      · exact hOkU
      · intro hdp
        have hq := h.pendDone u (mem_of_getElem hu) hdp
        rw [hp] at hq
        exact Bool.noConfusion hq
      · exact fun _ => Or.inl rfl
      · intro _
        refine Or.inl ?_
        rw [hp]
        rfl
      · intro hd
        rw [hp] at hd
        exact Bool.noConfusion hd
      · intro N' hN' hsum
        rw [countPermits, countP_set_eq (fun w => w.holdsPermit) { u with phase := Phase.waitingPermit } hu rfl]
        exact hsum
  | acquirePermit i u N hu hcap hp hc ha =>
      have hOkU := h.unitOk u (mem_of_getElem hu)
      simp only [UnitOk, hp] at hOkU
      simp only [MState.setUnit]
      refine inv_local h hu _ _ _ ?_ ?_ ?_ ?_ ?_ ?_
      · exact ⟨rfl, hOkU.2.1, by simp [hcap]⟩
      · intro hdp
        have hq := h.pendDone u (mem_of_getElem hu) hdp
        rw [hp] at hq
        exact Bool.noConfusion hq
      · exact fun _ => Or.inl rfl
      · intro _
        refine Or.inl ?_
        rw [hp]
        rfl
      · intro hd
        rw [hp] at hd
        exact Bool.noConfusion hd
      · intro N' hN' hsum
        have hpermit : u.holdsPermit = false := hOkU.2.2
        have hadd := countP_set_add (fun w => w.holdsPermit) s.units i u { u with phase := Phase.startedMark, started := true, holdsPermit := true } hu
        simp [hpermit] at hadd
        unfold countPermits at hsum ⊢
        omega
  | startNoGate i u hu hcap hp hc =>
      have hOkU := h.unitOk u (mem_of_getElem hu)
      simp only [UnitOk, hp] at hOkU
      simp only [MState.setUnit]
      refine inv_local h hu _ _ _ ?_ ?_ ?_ ?_ ?_ ?_
      · refine ⟨rfl, hOkU.2.1, ?_⟩
        rw [hcap]
        exact hOkU.2.2
      · intro hdp
        have hq := h.pendDone u (mem_of_getElem hu) hdp
        rw [hp] at hq
        exact Bool.noConfusion hq
      · exact fun _ => Or.inl rfl
      · intro _
        refine Or.inl ?_
        rw [hp]
        rfl
      · intro hd
        rw [hp] at hd
        exact Bool.noConfusion hd
      · intro N' hN' hsum
        rw [countPermits, countP_set_eq (fun w => w.holdsPermit) { u with phase := Phase.startedMark, started := true } hu rfl]
        exact hsum
  | invokeWork i u hu hp =>
      have hOkU := h.unitOk u (mem_of_getElem hu)
      simp only [UnitOk, hp] at hOkU
      simp only [MState.setUnit]
      refine inv_local h hu _ _ _ ?_ ?_ ?_ ?_ ?_ ?_
      · exact ⟨hOkU.1, rfl, hOkU.2.2⟩
      · intro hdp
        have hq := h.pendDone u (mem_of_getElem hu) hdp
        rw [hp] at hq
        exact Bool.noConfusion hq
      · exact fun _ => Or.inl rfl
      · intro _
        refine Or.inl ?_
        rw [hp]
        rfl
      · intro hd
        rw [hp] at hd
        exact Bool.noConfusion hd
      · intro N' hN' hsum
        rw [countPermits, countP_set_eq (fun w => w.holdsPermit) { u with phase := Phase.running, workStarted := true } hu rfl]
        exact hsum
  | finishWork i u o hu hp =>
      have hOkU := h.unitOk u (mem_of_getElem hu)
      simp only [UnitOk, hp] at hOkU
      simp only [MState.setUnit]
      refine inv_local h hu _ _ _ ?_ ?_ ?_ ?_ ?_ ?_
      · refine ⟨rfl, fun _ => hOkU.1, ?_⟩
        intro hwf
        have hwf' : u.workStarted = false := hwf
        rw [hOkU.2.1] at hwf'
        exact Bool.noConfusion hwf'
      · exact fun _ => rfl
      · exact fun _ => Or.inr rfl
      · intro _
        refine Or.inl ?_
        rw [hp]
        rfl
      · intro hd
        rw [hp] at hd
        exact Bool.noConfusion hd
      · intro N' hN' hsum
        have hadd := countP_set_add (fun w => w.holdsPermit) s.units i u { u with phase := Phase.done o, holdsPermit := false, discardPending := true, dispatchPending := true } hu
        unfold countPermits at hsum ⊢
        cases hperm : u.holdsPermit
        · simp [hperm] at hadd ⊢
          omega
        · simp [hperm] at hadd ⊢
          omega
  | cancelAbort i u hu hp hc =>
      have hOkU := h.unitOk u (mem_of_getElem hu)
      have hOkU' : u.started = false ∧ u.workStarted = false ∧ u.holdsPermit = false := by
        rcases hp with hp | hp <;> simp only [UnitOk, hp] at hOkU <;> exact hOkU
      simp only [MState.setUnit]
      refine inv_local h hu _ _ _ ?_ ?_ ?_ ?_ ?_ ?_
      · refine ⟨hOkU'.2.2, ?_, fun _ => ⟨hOkU'.1, rfl⟩⟩
        intro hws
        have hws' : u.workStarted = true := hws
        rw [hOkU'.2.1] at hws'
        exact Bool.noConfusion hws'
      · exact fun _ => rfl
      · exact fun _ => Or.inr rfl
      · intro _
        refine Or.inl ?_
        rcases hp with hp | hp <;> rw [hp] <;> rfl
      · intro hd
        rcases hp with hp | hp <;> rw [hp] at hd <;> exact Bool.noConfusion hd
      · intro N' hN' hsum
        rw [countPermits, countP_set_eq (fun w => w.holdsPermit) { u with phase := Phase.done (Outcome.raised PyExn.cancelled), discardPending := true, dispatchPending := true } hu rfl]
        exact hsum
  | requestCancel i u hu hd =>
      simp only [MState.setUnit]
      refine inv_local h hu _ _ _ ?_ ?_ ?_ ?_ ?_ ?_
      · exact h.unitOk u (mem_of_getElem hu)
      · exact fun hdp => h.pendDone u (mem_of_getElem hu) hdp
      · exact fun hk => hk
      · exact fun hk => hk
      · exact fun hk => hk
      · intro N' hN' hsum
        rw [countPermits, countP_set_eq (fun w => w.holdsPermit) { u with cancelRequested := true } hu rfl]
        exact hsum
  | runDiscard i u hu hd =>
      exact inv_runDiscard h hu hd
  | runDispatch i u o hu hpd hdd ho =>
      simp only [MState.setUnit]
      refine inv_local h hu _ _ _ ?_ ?_ ?_ ?_ ?_ ?_
      · exact h.unitOk u (mem_of_getElem hu)
      · exact fun hdp => h.pendDone u (mem_of_getElem hu) hdp
      · exact fun hk => hk
      · exact fun hk => hk
      · exact fun hk => hk
      · intro N' hN' hsum
        rw [countPermits, countP_set_eq (fun w => w.holdsPermit) { u with dispatchPending := false, dispatched := true } hu rfl]
        exact hsum
  | shutdownAtomic w c hwc =>
      exact inv_shutdownAtomic h w c hwc
  | shutdownBegin c hne =>
      exact inv_shutdownBegin h c
  | shutdownFinish k rec hk hw hf hdone =>
      exact inv_shutdownFinish h hk hdone

theorem reachable_inv {τ α : Type} {capacity : Option Nat} {s : MState τ α}
    (h : Reachable capacity s) : Inv s := by
  induction h with
  | refl => exact inv_init capacity
  | tail _ hstep ih => exact inv_step ih hstep

end XiaoboTask

namespace XiaoboTask

theorem reachable_capacity {τ α : Type} {cap : Option Nat} {s : MState τ α}
    (h : Reachable cap s) : s.capacity = cap := by
  induction h with
  | refl => rfl
  | tail _ hstep ih => cases hstep <;> exact ih

theorem started_monotone {τ α : Type} {s s' : MState τ α} (st : Step s s')
    {i : Nat} {u u' : TaskUnit τ α} (hu : s.units[i]? = some u)
    (hu' : s'.units[i]? = some u') (hst : u.started = true) :
    u'.started = true := by
  cases st with
  | submit d =>
      have hlt := lt_length_of_getElem hu
      rw [List.getElem?_append_left hlt] at hu'
      rw [hu] at hu'
      obtain rfl := Option.some.inj hu'
      exact hst
  | enterAcquire j u0 N hu0 hcap hp hc =>
      simp only [MState.setUnit] at hu'
      rw [getElem?_set_split _ hu0 i] at hu'
      by_cases hij : i = j
      · subst hij
        rw [if_pos rfl] at hu'
        obtain rfl := Option.some.inj hu'
        rw [hu0] at hu
        obtain rfl := Option.some.inj hu
        exact hst
      · rw [if_neg hij] at hu'
        rw [hu] at hu'
        obtain rfl := Option.some.inj hu'
        exact hst
  | acquirePermit j u0 N hu0 hcap hp hc ha =>
      simp only [MState.setUnit] at hu'
      rw [getElem?_set_split _ hu0 i] at hu'
      by_cases hij : i = j
      · subst hij
        rw [if_pos rfl] at hu'
        obtain rfl := Option.some.inj hu'
        rfl
      · rw [if_neg hij] at hu'
        rw [hu] at hu'
        obtain rfl := Option.some.inj hu'
        exact hst
  | startNoGate j u0 hu0 hcap hp hc =>
      simp only [MState.setUnit] at hu'
      rw [getElem?_set_split _ hu0 i] at hu'
      by_cases hij : i = j
      · subst hij
        rw [if_pos rfl] at hu'
        obtain rfl := Option.some.inj hu'
        rfl
      · rw [if_neg hij] at hu'
        rw [hu] at hu'
        obtain rfl := Option.some.inj hu'
        exact hst
  | invokeWork j u0 hu0 hp =>
      simp only [MState.setUnit] at hu'
      rw [getElem?_set_split _ hu0 i] at hu'
      by_cases hij : i = j
      · subst hij
        rw [if_pos rfl] at hu'
        obtain rfl := Option.some.inj hu'
        rw [hu0] at hu
        obtain rfl := Option.some.inj hu
        exact hst
      · rw [if_neg hij] at hu'
        rw [hu] at hu'
        obtain rfl := Option.some.inj hu'
        exact hst
  | finishWork j u0 o hu0 hp =>
      simp only [MState.setUnit] at hu'
      rw [getElem?_set_split _ hu0 i] at hu'
      by_cases hij : i = j
      · subst hij
        rw [if_pos rfl] at hu'
        obtain rfl := Option.some.inj hu'
        rw [hu0] at hu
        obtain rfl := Option.some.inj hu
        exact hst
      · rw [if_neg hij] at hu'
        rw [hu] at hu'
        obtain rfl := Option.some.inj hu'
        exact hst
  | cancelAbort j u0 hu0 hp hc =>
      simp only [MState.setUnit] at hu'
      rw [getElem?_set_split _ hu0 i] at hu'
      by_cases hij : i = j
      · subst hij
        rw [if_pos rfl] at hu'
        obtain rfl := Option.some.inj hu'
        rw [hu0] at hu
        obtain rfl := Option.some.inj hu
        exact hst
      · rw [if_neg hij] at hu'
        rw [hu] at hu'
        obtain rfl := Option.some.inj hu'
        exact hst
  | requestCancel j u0 hu0 hd =>
      simp only [MState.setUnit] at hu'
      rw [getElem?_set_split _ hu0 i] at hu'
      by_cases hij : i = j
      · subst hij
        rw [if_pos rfl] at hu'
        obtain rfl := Option.some.inj hu'
        rw [hu0] at hu
        obtain rfl := Option.some.inj hu
        exact hst
      · rw [if_neg hij] at hu'
        rw [hu] at hu'
        obtain rfl := Option.some.inj hu'
        exact hst
  | runDiscard j u0 hu0 hd =>
      simp only [MState.setUnit] at hu'
      rw [getElem?_set_split _ hu0 i] at hu'
      by_cases hij : i = j
      · subst hij
        rw [if_pos rfl] at hu'
        obtain rfl := Option.some.inj hu'
        rw [hu0] at hu
        obtain rfl := Option.some.inj hu
        exact hst
      · rw [if_neg hij] at hu'
        rw [hu] at hu'
        obtain rfl := Option.some.inj hu'
        exact hst
  | runDispatch j u0 o hu0 hpd hdd ho =>
      simp only [MState.setUnit] at hu'
      rw [getElem?_set_split _ hu0 i] at hu'
      by_cases hij : i = j
      · subst hij
        rw [if_pos rfl] at hu'
        obtain rfl := Option.some.inj hu'
        rw [hu0] at hu
        obtain rfl := Option.some.inj hu
        exact hst
      · rw [if_neg hij] at hu'
        rw [hu] at hu'
        obtain rfl := Option.some.inj hu'
        exact hst
  | shutdownAtomic w c hwc =>
      unfold shutdownAtomicState at hu'
      obtain ⟨u0, hu0, _, hstEq, _, _, _⟩ := branch_getElem c _ _ hu'
      rw [hu] at hu0
      obtain rfl := Option.some.inj hu0
      rw [hstEq]
      exact hst
  | shutdownBegin c hne =>
      obtain ⟨u0, hu0, _, hstEq, _, _, _⟩ := branch_getElem c _ _ hu'
      rw [hu] at hu0
      obtain rfl := Option.some.inj hu0
      rw [hstEq]
      exact hst
  | shutdownFinish k rec hk hw hf hdone =>
      rw [hu] at hu'
      obtain rfl := Option.some.inj hu'
      exact hst

end XiaoboTask

namespace XiaoboTask

theorem cancelQueuedItems_length {τ α : Type} :
    ∀ (l : List (PoolItem τ α)), (cancelQueuedItems l).length = l.length
  | [] => rfl
  | u :: rest => by
      simp [cancelQueuedItems, cancelQueuedItems_length rest]

theorem cancelQueuedItems_getElem? {τ α : Type} :
    ∀ (l : List (PoolItem τ α)) (i : Nat),
      (cancelQueuedItems l)[i]? = (l[i]?).map cancelQueuedItem
  | [], i => by simp [cancelQueuedItems]
  | u :: rest, 0 => by simp [cancelQueuedItems]
  | u :: rest, i+1 => by
      simp only [cancelQueuedItems, List.getElem?_cons_succ]
      exact cancelQueuedItems_getElem? rest i

theorem mem_cancelQueuedItems {τ α : Type} :
    ∀ (l : List (PoolItem τ α)) (u' : PoolItem τ α),
      u' ∈ cancelQueuedItems l → ∃ u ∈ l, u' = cancelQueuedItem u
  | [], u', h => by simp [cancelQueuedItems] at h
  | u :: rest, u', h => by
      rw [cancelQueuedItems] at h
      rcases List.mem_cons.mp h with rfl | h
      · exact ⟨u, List.mem_cons_self u rest, rfl⟩
      · obtain ⟨w, hw, he⟩ := mem_cancelQueuedItems rest u' h
        exact ⟨w, List.mem_cons_of_mem u hw, he⟩

theorem cancelQueuedItem_of_not_queued {τ α : Type} {u : PoolItem τ α}
    (h : u.phase ≠ PoolItemPhase.queued) : cancelQueuedItem u = u := by
  unfold cancelQueuedItem
  rw [if_neg h]

theorem pbranch_length {τ α : Type} (c : Bool) (l : List (PoolItem τ α)) :
    (if c then cancelQueuedItems l else l).length = l.length := by
  cases c
  · rw [if_neg (by decide)]
  · rw [if_pos (by decide)]
    exact cancelQueuedItems_length l

theorem pbranch_getElem {τ α : Type} (c : Bool) (l : List (PoolItem τ α))
    {i : Nat} {u' : PoolItem τ α}
    (h : (if c then cancelQueuedItems l else l)[i]? = some u') :
    ∃ u, l[i]? = some u ∧ (u' = u ∨ u' = cancelQueuedItem u) := by
  cases c
  · rw [if_neg (by decide)] at h
    exact ⟨u', h, Or.inl rfl⟩
  · rw [if_pos (by decide)] at h
    rw [cancelQueuedItems_getElem?] at h
    rcases Option.map_eq_some'.mp h with ⟨u, hu, he⟩
    exact ⟨u, hu, Or.inr he.symm⟩

theorem pbranch_mem {τ α : Type} (c : Bool) {l : List (PoolItem τ α)}
    {u' : PoolItem τ α} (h : u' ∈ (if c then cancelQueuedItems l else l)) :
    ∃ u ∈ l, u' = u ∨ u' = cancelQueuedItem u := by
  cases c
  · rw [if_neg (by decide)] at h
    exact ⟨u', h, Or.inl rfl⟩
  · rw [if_pos (by decide)] at h
    obtain ⟨u, hu, he⟩ := mem_cancelQueuedItems l u' h
    exact ⟨u, hu, Or.inr he⟩

theorem pinv_init {τ α : Type} : PInv (initPool τ α) := by
  constructor <;> simp [initPool]

theorem pinv_step {τ α : Type} {p p' : PoolState τ α} (h : PInv p)
    (st : PStep p p') : PInv p' := by
  cases st with
  | psubmit d o =>
      refine ⟨?_, ?_, ?_⟩
      · intro rec hrec
        have := h.pSubCount rec hrec
        simp only [List.length_append, List.length_cons, List.length_nil]
        omega
      · intro u' hm
        rcases List.mem_append.mp hm with hm | hm
        · exact h.pDone u' hm
        · simp at hm
          subst hm
          constructor
          · intro hcb
            exact Bool.noConfusion hcb
          · intro hph
            exact PoolItemPhase.noConfusion hph
      · intro rec hrec hw hr i u hi hu
        have hlt : i < p.items.length := lt_of_lt_of_le hi (h.pSubCount rec hrec)
        rw [List.getElem?_append_left hlt] at hu
        exact h.pDrain rec hrec hw hr i u hi hu
  | pstartItem i u hu hq =>
      refine ⟨?_, ?_, ?_⟩
      · intro rec hrec
        simp only [List.length_set]
        exact h.pSubCount rec hrec
      · intro u' hm
        rcases List.mem_or_eq_of_mem_set hm with hm | rfl
        · exact h.pDone u' hm
        · have hp := h.pDone u (mem_of_getElem hu)
          rw [hq] at hp
          constructor
          · intro hcb
            exact absurd (hp.mp hcb) (by decide)
          · intro hph
            have hph' : PoolItemPhase.running = PoolItemPhase.finished := hph
            exact absurd hph' (by decide)
      · intro rec hrec hw hr j u' hj hu'
        rw [getElem?_set_split _ hu j] at hu'
        by_cases hji : j = i
        · rw [if_pos hji] at hu'
          obtain rfl := Option.some.inj hu'
          subst hji
          exact h.pDrain rec hrec hw hr j u hj hu
        · rw [if_neg hji] at hu'
          exact h.pDrain rec hrec hw hr j u' hj hu'
  | pfinishItem i u hu hr =>
      refine ⟨?_, ?_, ?_⟩
      · intro rec hrec
        simp only [List.length_set]
        exact h.pSubCount rec hrec
      · intro u' hm
        rcases List.mem_or_eq_of_mem_set hm with hm | rfl
        · exact h.pDone u' hm
        · exact ⟨fun _ => rfl, fun _ => rfl⟩
      · intro rec hrec hw hrt j u' hj hu'
        rw [getElem?_set_split _ hu j] at hu'
        by_cases hji : j = i
        · rw [if_pos hji] at hu'
          obtain rfl := Option.some.inj hu'
          rfl
        · rw [if_neg hji] at hu'
          exact h.pDrain rec hrec hw hrt j u' hj hu'
  | pshutdownCall w c =>
      unfold poolShutdownState
      refine ⟨?_, ?_, ?_⟩
      · intro rec hrec
        rw [pbranch_length]
        rcases List.mem_append.mp hrec with hrec | hrec
        · exact h.pSubCount rec hrec
        · simp at hrec
          subst hrec
          exact Nat.le_refl _
      · intro u' hm
        obtain ⟨u, hu, hcase⟩ := pbranch_mem c hm
        rcases hcase with he | he
        · rw [he]
          exact h.pDone u hu
        · rw [he]
          unfold cancelQueuedItem
          by_cases hq : u.phase = PoolItemPhase.queued
          · rw [if_pos hq]
            exact ⟨fun _ => rfl, fun _ => rfl⟩
          · rw [if_neg hq]
            exact h.pDone u hu
      · intro rec hrec hw hrt i u' hi hu'
        obtain ⟨u, hu, hcase⟩ := pbranch_getElem c _ hu'
        rcases List.mem_append.mp hrec with hrec | hrec
        · have hcb := h.pDrain rec hrec hw hrt i u hi hu
          have hfin := (h.pDone u (mem_of_getElem hu)).mp hcb
          rcases hcase with he | he
          · rw [he]
            exact hcb
          · rw [he, cancelQueuedItem_of_not_queued (by rw [hfin]; decide)]
            exact hcb
        · simp at hrec
          subst hrec
          have hw' : w = true := hw
          have hrt' : (!w) = true := hrt
          rw [hw'] at hrt'
          exact Bool.noConfusion hrt'
  | pshutdownReturn k rec hk hw hr hdone =>
      refine ⟨?_, ?_, ?_⟩
      · intro rec' hrec'
        rcases List.mem_or_eq_of_mem_set hrec' with hrec' | rfl
        · exact h.pSubCount rec' hrec'
        · exact h.pSubCount rec (mem_of_getElem hk)
      · exact h.pDone
      · intro rec' hrec' hw' hr' i u hi hu
        rcases List.mem_or_eq_of_mem_set hrec' with hrec' | rfl
        · exact h.pDrain rec' hrec' hw' hr' i u hi hu
        · exact hdone i u hi hu

theorem preachable_inv {τ α : Type} {p : PoolState τ α} (h : PReachable p) :
    PInv p := by
  induction h with
  | refl => exact pinv_init
  | tail _ hstep ih => exact pinv_step ih hstep

end XiaoboTask

namespace XiaoboTask

/-- Claim C1, counterexample: with on_success present and raising an ordinary
Exception and on_error present, a successfully completed task observes two
callback invocations, not exactly one. -/
theorem two_callbacks_when_on_success_raises :
    (task_done_callback
      (⟨0, some (fun _ _ => some (PyExn.exn 0)), some (fun _ _ => none), none⟩ :
        Descriptor Nat Nat) (Outcome.success 1)).1
      = [Call.success 0 1, Call.error 0 (PyExn.exn 0)] ∧
    (task_done_callback
      (⟨0, some (fun _ _ => some (PyExn.exn 0)), some (fun _ _ => none), none⟩ :
        Descriptor Nat Nat) (Outcome.success 1)).1.length = 2 :=
  ⟨rfl, rfl⟩

/-- Claim C1 (amended): provided no present callback itself raises, the
dispatcher performs at most one callback invocation, and exactly one when the
callback matching the outcome is present (and the outcome is not a
non-Exception BaseException). -/
theorem dispatch_at_most_once {τ α : Type} (d : Descriptor τ α) (o : Outcome α)
    (h : NoRaise d) :
    (task_done_callback d o).1.length ≤ 1 ∧
    (matchingPresent d o = true → (task_done_callback d o).1.length = 1) := by
  obtain ⟨hs, he, hc⟩ := h
  cases o with
  | success r =>
      cases hds : d.on_success with
      | none =>
          constructor
          · simp [task_done_callback, hds]
          · intro hm
            simp [matchingPresent, hds] at hm
      | some f =>
          have hf := hs f hds d.target r
          constructor
          · simp [task_done_callback, hds, hf]
          · intro _
            simp [task_done_callback, hds, hf]
  | raised e =>
      cases e with
      | cancelled =>
          cases hdc : d.on_cancel with
          | none =>
              constructor
              · simp [task_done_callback, runCancelBranch, hdc]
              · intro hm
                simp [matchingPresent, hdc] at hm
          | some k =>
              constructor
              · simp [task_done_callback, runCancelBranch, hdc]
              · intro _
                simp [task_done_callback, runCancelBranch, hdc]
      | exn ccode =>
          cases hde : d.on_error with
          | none =>
              constructor
              · simp [task_done_callback, runErrorBranch, hde]
              · intro hm
                simp [matchingPresent, hde] at hm
          | some g =>
              constructor
              · simp [task_done_callback, runErrorBranch, hde]
              · intro _
                simp [task_done_callback, runErrorBranch, hde]
      | base b =>
          constructor
          · simp [task_done_callback]
          · intro hm
            simp [matchingPresent] at hm

/-- Witness for the amended claim C1 at a concrete descriptor and outcome. -/
theorem dispatch_at_most_once_witness :
    (task_done_callback dNoRaise (Outcome.success 5)).1.length = 1 :=
  (dispatch_at_most_once dNoRaise (Outcome.success 5)
    ⟨fun f hf => by cases hf; intro t r; rfl,
     fun g hg => by cases hg; intro t e; rfl,
     fun k hk => by cases hk; intro t; rfl⟩).2 rfl

/-- Claim C2: the dispatcher classifies terminal outcomes: a normal return
invokes on_success with target and result, an ordinary Exception invokes
on_error with target and the exception, cancellation invokes on_cancel with
the target, and an absent callback means no invocation and no error; moreover
in the cooperative model a task reaching a terminal state without having run
its work body was necessarily classified cancelled. -/
theorem dispatch_classifies {τ α : Type} :
    (∀ (d : Descriptor τ α) (r : α) (f : τ → α → Option PyExn),
      d.on_success = some f → f d.target r = none →
      task_done_callback d (Outcome.success r) = ([Call.success d.target r], none)) ∧
    (∀ (d : Descriptor τ α) (r : α), d.on_success = none →
      task_done_callback d (Outcome.success r) = ([], none)) ∧
    (∀ (d : Descriptor τ α) (c : Nat) (g : τ → PyExn → Option PyExn),
      d.on_error = some g → g d.target (PyExn.exn c) = none →
      task_done_callback d (Outcome.raised (PyExn.exn c)) =
        ([Call.error d.target (PyExn.exn c)], none)) ∧
    (∀ (d : Descriptor τ α) (c : Nat), d.on_error = none →
      task_done_callback d (Outcome.raised (PyExn.exn c)) = ([], none)) ∧
    (∀ (d : Descriptor τ α) (k : τ → Option PyExn),
      d.on_cancel = some k → k d.target = none →
      task_done_callback d (Outcome.raised PyExn.cancelled) =
        ([Call.cancel d.target], none)) ∧
    (∀ (d : Descriptor τ α), d.on_cancel = none →
      task_done_callback d (Outcome.raised PyExn.cancelled) = ([], none)) ∧
    (∀ (cap : Option Nat) (s : MState τ α), Reachable cap s → ∀ u ∈ s.units,
      ∀ o, u.phase = Phase.done o → u.workStarted = false →
      o = Outcome.raised PyExn.cancelled) := by
  refine ⟨?_, ?_, ?_, ?_, ?_, ?_, ?_⟩
  · intro d r f hf hret
    simp [task_done_callback, hf, hret]
  · intro d r hn
    simp [task_done_callback, hn]
  · intro d c g hg hret
    simp [task_done_callback, runErrorBranch, hg, hret]
  · intro d c hn
    simp [task_done_callback, runErrorBranch, hn]
  · intro d k hk hret
    simp [task_done_callback, runCancelBranch, hk, hret]
  · intro d hn
    simp [task_done_callback, runCancelBranch, hn]
  · intro cap s h u hm o hph hws
    have hOkU := (reachable_inv h).unitOk u hm
    simp only [UnitOk, hph] at hOkU
    exact (hOkU.2.2 hws).2

/-- Witness for claim C2 at a concrete descriptor and outcome. -/
theorem dispatch_classifies_witness :
    task_done_callback dNoRaise (Outcome.success 5) = ([Call.success 7 5], none) :=
  dispatch_classifies.1 dNoRaise 5 (fun _ _ => none) rfl rfl

/-- Claim C6: construction raises exactly when max_workers is provided and not
positive; max_workers of 0 and -1 are rejected, None and positive values are
accepted. -/
theorem max_workers_validation :
    (∀ mw : Option Int,
      (∃ msg, baseTaskManagerInit mw = Except.error msg) ↔
        (∃ n, mw = some n ∧ n ≤ 0)) ∧
    (∃ m, baseTaskManagerInit (some 0) = Except.error m) ∧
    (∃ m, baseTaskManagerInit (some (-1)) = Except.error m) ∧
    baseTaskManagerInit none = Except.ok () ∧
    (∀ n : Int, 0 < n → baseTaskManagerInit (some n) = Except.ok ()) := by
  refine ⟨?_, ⟨_, rfl⟩, ⟨_, rfl⟩, rfl, ?_⟩
  · intro mw
    constructor
    · rintro ⟨msg, hmsg⟩
      cases mw with
      | none => simp [baseTaskManagerInit] at hmsg
      | some n =>
          by_cases hn : n ≤ 0
          · exact ⟨n, rfl, hn⟩
          · simp [baseTaskManagerInit, hn] at hmsg
    · rintro ⟨n, rfl, hn⟩
      exact ⟨"max_workers must be a positive integer or None",
        by simp [baseTaskManagerInit, hn]⟩
  · intro n hn
    have hn2 : ¬ n ≤ 0 := by omega
    simp [baseTaskManagerInit, hn2]

/-- Witness for claim C6 at a concrete positive capacity. -/
theorem max_workers_validation_witness :
    baseTaskManagerInit (some 3) = Except.ok () :=
  max_workers_validation.2.2.2.2 3 (by decide)

/-- Claim C9: when work succeeds but on_success raises an ordinary Exception,
the except Exception clause catches it and on_error is invoked with the target
and the raised exception, so the task observes two callback invocations. -/
theorem success_callback_raise_invokes_on_error {τ α : Type}
    (d : Descriptor τ α) (r : α) (f : τ → α → Option PyExn)
    (g : τ → PyExn → Option PyExn) (c : Nat)
    (hf : d.on_success = some f) (hraise : f d.target r = some (PyExn.exn c))
    (hg : d.on_error = some g) :
    task_done_callback d (Outcome.success r) =
      ([Call.success d.target r, Call.error d.target (PyExn.exn c)],
        g d.target (PyExn.exn c)) := by
  simp [task_done_callback, hf, hraise, runErrorBranch, hg]

/-- Witness for claim C9 at a concrete descriptor. -/
theorem success_callback_raise_invokes_on_error_witness :
    task_done_callback dRaises (Outcome.success 1) =
      ([Call.success 3 1, Call.error 3 (PyExn.exn 42)], none) :=
  success_callback_raise_invokes_on_error dRaises 1
    (fun _ _ => some (PyExn.exn 42)) (fun _ _ => none) 42 rfl rfl rfl

/-- Claim C10: a work body exiting with a BaseException that is neither an
Exception nor CancelledError matches no except clause: no callback is
invoked and the exception escapes the dispatcher. -/
theorem base_exception_skips_callbacks {τ α : Type} (d : Descriptor τ α)
    (c : Nat) :
    task_done_callback d (Outcome.raised (PyExn.base c)) =
      ([], some (PyExn.base c)) :=
  rfl

/-- Claim C5: in any reachable state of a cooperative manager with a gate of N
permits, at most N work bodies are in the running phase; and a worker pool of
N workers runs at most N task bodies at once. -/
theorem capacity_bound {τ α : Type} :
    (∀ (N : Nat) (s : MState τ α), Reachable (some N) s →
      countRunning s.units ≤ N) ∧
    (∀ (N : Nat) (workers : List (Option Nat)), workers.length = N →
      poolBusy workers ≤ N) := by
  constructor
  · intro N s hreach
    have hinv := reachable_inv hreach
    have hcap := reachable_capacity hreach
    have hsum := hinv.gatedCount N hcap
    have hmono : countRunning s.units ≤ countPermits s.units := by
      unfold countRunning countPermits
      apply List.countP_mono_left
      intro u hm hrun
      have hrun' : u.isRunning = true := hrun
      have hph : u.phase = Phase.running := by
        unfold TaskUnit.isRunning at hrun'
        cases hph : u.phase
        · rw [hph] at hrun'
          exact Bool.noConfusion hrun'
        · rw [hph] at hrun'
          exact Bool.noConfusion hrun'
        · rw [hph] at hrun'
          exact Bool.noConfusion hrun'
        · rfl
        · rw [hph] at hrun'
          exact Bool.noConfusion hrun'
      have hOkU := hinv.unitOk u hm
      simp only [UnitOk, hph] at hOkU
      have hperm := hOkU.2.2
      rw [hcap] at hperm
      exact hperm
    omega
  · intro N workers hlen
    unfold poolBusy
    calc (workers.filterMap id).length ≤ workers.length :=
          List.length_filterMap_le id workers
    _ = N := hlen

/-- Witness for claim C5 at a freshly constructed manager of capacity 2 and a
pool of two workers. -/
theorem capacity_bound_witness :
    countRunning (initState Nat Nat (some 2)).units ≤ 2 ∧
    poolBusy [some 0, none] ≤ 2 :=
  ⟨(@capacity_bound Nat Nat).1 2 _ Relation.ReflTransGen.refl,
   (@capacity_bound Nat Nat).2 2 [some 0, none] rfl⟩

/-- Claim C7: the started flag is false in the waiting phases (in particular
at submission), true from startedMark on, set only by a step that also holds
a permit when a gate exists, monotone along every step, and a unit that
terminates with started still false never entered its work body and was
classified cancelled. -/
theorem started_flag_protocol {τ α : Type} :
    (∀ (cap : Option Nat) (s : MState τ α), Reachable cap s → ∀ u ∈ s.units,
      ((u.phase = Phase.created ∨ u.phase = Phase.waitingPermit) →
        u.started = false) ∧
      (u.workStarted = true → u.started = true) ∧
      (u.started = false → u.workStarted = false) ∧
      (∀ N, cap = some N →
        (u.phase = Phase.startedMark ∨ u.phase = Phase.running) →
        u.holdsPermit = true ∧ u.started = true) ∧
      (∀ o, u.phase = Phase.done o → u.started = false →
        u.workStarted = false ∧ o = Outcome.raised PyExn.cancelled)) ∧
    (∀ (s s' : MState τ α), Step s s' → ∀ (i : Nat) (u u' : TaskUnit τ α),
      s.units[i]? = some u → s'.units[i]? = some u' →
      u.started = true → u'.started = true) := by
  constructor
  · intro cap s h u hm
    have hOkU := (reachable_inv h).unitOk u hm
    have hcap := reachable_capacity h
    subst hcap
    cases hph : u.phase with
    | created =>
        simp only [UnitOk, hph] at hOkU
        refine ⟨fun _ => hOkU.1, ?_, fun _ => hOkU.2.1, ?_, ?_⟩
        · intro hws
          rw [hOkU.2.1] at hws
          exact Bool.noConfusion hws
        · intro N hN hpr
          rcases hpr with hpr | hpr <;> exact Phase.noConfusion hpr
        · intro o ho
          exact Phase.noConfusion ho
    | waitingPermit =>
        simp only [UnitOk, hph] at hOkU
        refine ⟨fun _ => hOkU.1, ?_, fun _ => hOkU.2.1, ?_, ?_⟩
        · intro hws
          rw [hOkU.2.1] at hws
          exact Bool.noConfusion hws
        · intro N hN hpr
          rcases hpr with hpr | hpr <;> exact Phase.noConfusion hpr
        · intro o ho
          exact Phase.noConfusion ho
    | startedMark =>
        simp only [UnitOk, hph] at hOkU
        refine ⟨?_, fun _ => hOkU.1, fun _ => hOkU.2.1, ?_, ?_⟩
        · intro hpr
          rcases hpr with hpr | hpr <;> exact Phase.noConfusion hpr
        · intro N hN _
          refine ⟨?_, hOkU.1⟩
          rw [hOkU.2.2, hN]
          rfl
        · intro o ho
          exact Phase.noConfusion ho
    | running =>
        simp only [UnitOk, hph] at hOkU
        refine ⟨?_, fun _ => hOkU.1, ?_, ?_, ?_⟩
        · intro hpr
          rcases hpr with hpr | hpr <;> exact Phase.noConfusion hpr
        · intro hstf
          rw [hOkU.1] at hstf
          exact Bool.noConfusion hstf
        · intro N hN _
          refine ⟨?_, hOkU.1⟩
          rw [hOkU.2.2, hN]
          rfl
        · intro o ho
          exact Phase.noConfusion ho
    | done o0 =>
        simp only [UnitOk, hph] at hOkU
        refine ⟨?_, hOkU.2.1, ?_, ?_, ?_⟩
        · intro hpr
          rcases hpr with hpr | hpr <;> exact Phase.noConfusion hpr
        · intro hstf
          cases hws : u.workStarted
          · rfl
          · have hq := hOkU.2.1 hws
            rw [hq] at hstf
            exact Bool.noConfusion hstf
        · intro N hN hpr
          rcases hpr with hpr | hpr <;> exact Phase.noConfusion hpr
        · intro o ho hstf
          injection ho with ho2
          subst ho2
          cases hws : u.workStarted
          · exact ⟨rfl, (hOkU.2.2 hws).2⟩
          · have hq := hOkU.2.1 hws
            rw [hq] at hstf
            exact Bool.noConfusion hstf
  · intro s s' st i u u' hu hu' hst
    exact started_monotone st hu hu' hst

/-- Witness for claim C7 at a freshly submitted unit. -/
theorem started_flag_protocol_witness :
    (⟨dNoRaise, Phase.created, false, false, false, false, false, false,
      false⟩ : TaskUnit Nat Nat).started = false :=
  ((started_flag_protocol.1 none _
      (Relation.ReflTransGen.single
        (Step.submit (initState Nat Nat none) dNoRaise)) _
      (by simp)).1 (Or.inl rfl))

end XiaoboTask

namespace XiaoboTask

/-- Claim C4, counterexample: a reachable state of a capacity-1 manager in
which the single submitted handle has already left the _tasks registry while
its dispatch task (the terminal callback) has not yet run. -/
theorem registry_removal_before_callback :
    ∃ (s : MState Nat Nat) (u : TaskUnit Nat Nat),
      Reachable (some 1) s ∧ s.units[0]? = some u ∧
      u.desc.on_success.isSome = true ∧ u.dispatched = false ∧
      u.dispatchPending = true ∧ 0 ∉ s.registry := by
  refine ⟨_, _,
    Relation.ReflTransGen.tail
      (Relation.ReflTransGen.tail
        (Relation.ReflTransGen.tail
          (Relation.ReflTransGen.tail
            (Relation.ReflTransGen.tail
              (Relation.ReflTransGen.single
                (Step.submit (initState Nat Nat (some 1)) dNoRaise))
              (Step.enterAcquire _ 0 _ 1 rfl rfl rfl rfl))
            (Step.acquirePermit _ 0 _ 1 rfl rfl rfl rfl (by decide)))
          (Step.invokeWork _ 0 _ rfl rfl))
        (Step.finishWork _ 0 _ (Outcome.success 5) rfl rfl))
      (Step.runDiscard _ 0 _ rfl rfl),
    rfl, rfl, rfl, rfl, ?_⟩
  decide

/-- Claim C4 (amended): while no shutdown has been called, a handle is in the
registry exactly from submission until the discard done callback runs at task
completion; once a completed unit has been discarded its index is out of the
registry, and callback invocations are only ever recorded for units already
out of the registry. -/
theorem registry_tracks_live_tasks {τ α : Type} :
    (∀ (cap : Option Nat) (s : MState τ α), Reachable cap s →
      s.shutdowns = [] → ∀ (i : Nat) (u : TaskUnit τ α), s.units[i]? = some u →
      (i ∈ s.registry ↔ (u.phase.isDone = false ∨ u.discardPending = true))) ∧
    (∀ (cap : Option Nat) (s : MState τ α), Reachable cap s →
      ∀ (i : Nat) (u : TaskUnit τ α), s.units[i]? = some u →
      u.phase.isDone = true → u.discardPending = false → i ∉ s.registry) ∧
    (∀ (cap : Option Nat) (s s' : MState τ α), Reachable cap s → Step s s' →
      s'.calls ≠ s.calls →
      ∃ (i : Nat) (u : TaskUnit τ α) (o : Outcome α), s.units[i]? = some u ∧
        u.phase = Phase.done o ∧ i ∉ s.registry ∧
        s'.calls = s.calls ++ (task_done_callback u.desc o).1) := by
  refine ⟨?_, ?_, ?_⟩
  · intro cap s h hsh i u hu
    have hinv := reachable_inv h
    constructor
    · intro hmem
      exact hinv.inReg i hmem u hu
    · intro hpr
      exact hinv.notReg hsh i u hu hpr
  · intro cap s h i u hu hdone hdp hmem
    have hinv := reachable_inv h
    rcases hinv.inReg i hmem u hu with hq | hq
    · rw [hdone] at hq
      exact Bool.noConfusion hq
    · rw [hdp] at hq
      exact Bool.noConfusion hq
  · intro cap s s' h st hne
    cases st
    case runDispatch i u o hu hpd hdd ho =>
      refine ⟨i, u, o, hu, ho, ?_, rfl⟩
      intro hmem
      rcases (reachable_inv h).inReg i hmem u hu with hq | hq
      · rw [ho] at hq
        exact Bool.noConfusion hq
      · rw [hdd] at hq
        exact Bool.noConfusion hq
    all_goals exact absurd rfl hne

/-- Witness for the amended claim C4: right after submission the handle is in
the registry. -/
theorem registry_tracks_live_tasks_witness :
    (0 : Nat) ∈ (([] : List Nat) ++ [0]) :=
  ((@registry_tracks_live_tasks Nat Nat).1 none _
      (Relation.ReflTransGen.single (Step.submit (initState Nat Nat none) dNoRaise))
      rfl 0 _ rfl).mpr (Or.inl rfl)

/-- Claim C3, counterexample: a cooperative manager run in which a
shutdown(wait true, cancel_tasks false) call has returned while the dispatch
callback of a task in its snapshot has not yet run. -/
theorem shutdown_resumes_before_callback :
    ∃ (s : MState Nat Nat) (rec : ShutdownRec) (u : TaskUnit Nat Nat),
      Reachable none s ∧ s.shutdowns[0]? = some rec ∧ rec.wait = true ∧
      rec.cancel_tasks = false ∧ rec.finished = true ∧ 0 ∈ rec.snapshot ∧
      s.units[0]? = some u ∧ u.desc.on_success.isSome = true ∧
      u.dispatched = false := by
  refine ⟨_, _, _,
    Relation.ReflTransGen.tail
      (Relation.ReflTransGen.tail
        (Relation.ReflTransGen.tail
          (Relation.ReflTransGen.tail
            (Relation.ReflTransGen.tail
              (Relation.ReflTransGen.single
                (Step.submit (initState Nat Nat none) dNoRaise))
              (Step.startNoGate _ 0 _ rfl rfl rfl rfl))
            (Step.invokeWork _ 0 _ rfl rfl))
          (Step.shutdownBegin _ false (by decide)))
        (Step.finishWork _ 0 _ (Outcome.success 5) rfl rfl))
      (Step.shutdownFinish _ 0 _ rfl rfl rfl ?_),
    rfl, rfl, rfl, rfl, ?_, rfl, rfl, rfl⟩
  · intro i u hi hua
    have hi1 : i ∈ ([0] : List Nat) := hi
    have hi0 : i = 0 := by simpa using hi1
    subst hi0
    obtain rfl := Option.some.inj hua
    rfl
  · decide

/-- Claim C3 (amended): shutdown with wait true and cancel_pending false
returns only after every task submitted before the call has reached a
terminal state. In the parallel manager the terminal callbacks have also
finished by then (they run synchronously on the worker threads that the
shutdown joins); the cooperative manager does not wait for the terminal
callbacks, which run in separately created tasks that the gather never
awaits. -/
theorem shutdown_wait_drains_tasks {τ α : Type} :
    (∀ (cap : Option Nat) (s : MState τ α), Reachable cap s →
      ∀ rec : ShutdownRec, s.shutdowns[0]? = some rec → rec.wait = true →
        rec.finished = true → ∀ (i : Nat) (u : TaskUnit τ α),
        i < rec.submittedCount → s.units[i]? = some u →
        u.phase.isDone = true) ∧
    (∀ (p : PoolState τ α), PReachable p →
      ∀ rec ∈ p.shutdowns, rec.wait = true → rec.returned = true →
        ∀ (i : Nat) (u : PoolItem τ α), i < rec.submittedCount →
        p.items[i]? = some u →
        u.phase = PoolItemPhase.finished ∧ u.callbackDone = true) := by
  constructor
  · intro cap s h rec hrec hw hf
    exact (reachable_inv h).drainAll rec hrec hw hf
  · intro p h rec hrec hw hr i u hi hu
    have hcb := (preachable_inv h).pDrain rec hrec hw hr i u hi hu
    exact ⟨((preachable_inv h).pDone u (mem_of_getElem hu)).mp hcb, hcb⟩

/-- Witness for the amended claim C3 on a concrete drained run of each
manager. -/
theorem shutdown_wait_drains_tasks_witness :
    Phase.isDone (Phase.done (Outcome.success (5 : Nat))) = true ∧
    ((⟨dNoRaise, Outcome.success 5, PoolItemPhase.finished, true⟩ :
        PoolItem Nat Nat).phase = PoolItemPhase.finished ∧
      (⟨dNoRaise, Outcome.success 5, PoolItemPhase.finished, true⟩ :
        PoolItem Nat Nat).callbackDone = true) :=
  ⟨(@shutdown_wait_drains_tasks Nat Nat).1 none _
    (Relation.ReflTransGen.tail
      (Relation.ReflTransGen.tail
        (Relation.ReflTransGen.tail
          (Relation.ReflTransGen.tail
            (Relation.ReflTransGen.tail
              (Relation.ReflTransGen.single
                (Step.submit (initState Nat Nat none) dNoRaise))
              (Step.startNoGate _ 0 _ rfl rfl rfl rfl))
            (Step.invokeWork _ 0 _ rfl rfl))
          (Step.shutdownBegin _ false (by decide)))
        (Step.finishWork _ 0 _ (Outcome.success 5) rfl rfl))
      (Step.shutdownFinish _ 0 _ rfl rfl rfl
        (by
          intro i u hi hua
          have hi1 : i ∈ ([0] : List Nat) := hi
          have hi0 : i = 0 := by simpa using hi1
          subst hi0
          obtain rfl := Option.some.inj hua
          rfl)))
    _ rfl rfl rfl 0 _ (by decide) rfl,
   (@shutdown_wait_drains_tasks Nat Nat).2 _
    (Relation.ReflTransGen.tail
      (Relation.ReflTransGen.tail
        (Relation.ReflTransGen.tail
          (Relation.ReflTransGen.tail
            (Relation.ReflTransGen.single
              (PStep.psubmit (initPool Nat Nat) dNoRaise (Outcome.success 5)))
            (PStep.pstartItem _ 0 _ rfl rfl))
          (PStep.pfinishItem _ 0 _ rfl rfl))
        (PStep.pshutdownCall _ true false))
      (PStep.pshutdownReturn _ 0 _ rfl rfl rfl
        (by
          intro i u hi hua
          have hi1 : i < 1 := hi
          have hi0 : i = 0 := by omega
          subst hi0
          obtain rfl := Option.some.inj hua
          rfl)))
    ⟨true, false, 1, true⟩ (by decide) rfl rfl 0 _ (by decide) rfl⟩

end XiaoboTask
